import Mathlib

/-!
Verification of the agentic-oracle repository: a shallow embedding of the
rate-limited FMP client (`src/tools/fmp_tool.py`), the JSON-ish text
extractor (`src/tools/helper_functions.py`), the judge-output interpreter
(`src/judge/investment_judge.py`) and the analysis pipeline boundary
(`src/analysis.py`), together with proofs and refutations of the spec's
claims about them.
-/

namespace Oracle

/-! ## Python-like values

JSON-ish values as manipulated by the Python code: `None`, booleans,
numbers, strings, lists and string-keyed dicts (association lists in
insertion order, as Python dicts preserve insertion order). -/

inductive PyVal where
  | none : PyVal
  | bool : Bool → PyVal
  | num : ℚ → PyVal
  | str : String → PyVal
  | list : List PyVal → PyVal
  | dict : List (String × PyVal) → PyVal

/-- Python `isinstance(v, dict)`. -/
def PyVal.isDict : PyVal → Bool
  | .dict _ => true
  | _ => false

/-- Python `isinstance(v, list)`. -/
def PyVal.isList : PyVal → Bool
  | .list _ => true
  | _ => false

/-- Python `"k" in d` for a dict (`False` on non-dicts, which the code
guards with `isinstance` checks). -/
def PyVal.hasKey : PyVal → String → Bool
  | .dict kvs, k => kvs.any (fun p => p.1 == k)
  | _, _ => false

/-- Lookup in an association list with a default. -/
def lookupD (kvs : List (String × PyVal)) (k : String) (d : PyVal) : PyVal :=
  match kvs.find? (fun p => p.1 == k) with
  | some p => p.2
  | Option.none => d

/-- Python `d.get(k, default)`. -/
def PyVal.getD : PyVal → String → PyVal → PyVal
  | .dict kvs, k, d => lookupD kvs k d
  | _, _, d => d

/-- Python `d.get(k)` (default `None`) and `d[k]` at guarded call sites. -/
def PyVal.get (v : PyVal) (k : String) : PyVal := v.getD k .none

/-- Python truthiness of a value (`if not data: ...`). -/
def PyVal.truthy : PyVal → Bool
  | .none => false
  | .bool b => b
  | .num q => q != 0
  | .str s => s != ""
  | .list xs => !xs.isEmpty
  | .dict kvs => !kvs.isEmpty

/-- Python `repr` of a value (used by `str` on containers); escape
subtleties of quote characters inside strings are not modelled, no message
inspected by a claim depends on them. -/
def pyRepr : PyVal → String
  | .none => "None"
  | .bool true => "True"
  | .bool false => "False"
  | .num q => if q.den = 1 then toString q.num else toString q
  | .str s => "'" ++ s ++ "'"
  | .list xs =>
      "[" ++ String.intercalate ", " (xs.attach.map (fun x => pyRepr x.1)) ++ "]"
  | .dict kvs =>
      "\x7b" ++ String.intercalate ", "
        (kvs.attach.map (fun p => "'" ++ p.1.1 ++ "': " ++ pyRepr p.1.2)) ++ "\x7d"
decreasing_by
  · have := List.sizeOf_lt_of_mem x.2
    simp only [PyVal.list.sizeOf_spec]
    omega
  · have h1 := List.sizeOf_lt_of_mem p.2
    have h2 : sizeOf p.1.2 ≤ sizeOf p.1 := by
      obtain ⟨a, b⟩ := p.1
      simp only [Prod.mk.sizeOf_spec]
      omega
    simp only [PyVal.dict.sizeOf_spec]
    omega

/-- Python `str` of a value, as used in f-string interpolation. -/
def PyVal.pyStr : PyVal → String
  | .str s => s
  | v => pyRepr v

/-! ## FMPTool response handling (`src/tools/fmp_tool.py`, `_make_request`)

The outcome of the network phase of `_make_request` (the `requests.get`,
`raise_for_status` and `.json()` calls) is supplied by an oracle; the
function's own classification of that outcome into data or an
`{error: ...}` dict is embedded below. -/

inductive HttpOutcome where
  | ok : PyVal → HttpOutcome
  | httpError : String → HttpOutcome
  | timeout : HttpOutcome
  | requestError : String → HttpOutcome
  | jsonError : HttpOutcome
  | otherError : String → HttpOutcome

/-- Helper for the uniform `{"error": msg}` result shape. -/
def errDict (m : String) : PyVal := .dict [("error", .str m)]

/-- Value returned by `FMPTool._make_request` for one endpoint, given the
outcome of the network phase (lines 71-125 of `fmp_tool.py`): FMP-reported
error fields and empty payloads are converted to `{error}` dicts, as is
every caught exception class. -/
def make_request_result (endpoint : String) (o : HttpOutcome) : PyVal :=
  match o with
  | .ok data =>
      if data.isDict && ((data.get "Error Message").truthy || (data.get "error").truthy) then
        errDict ("FMP API error: " ++
          (if (data.get "Error Message").truthy then data.get "Error Message"
           else data.get "error").pyStr)
      else if !data.truthy then
        errDict ("Empty response from FMP API for " ++ endpoint)
      else data
  | .httpError m => errDict ("HTTP error: " ++ m)
  | .timeout => errDict ("Request to " ++ endpoint ++ " timed out after 10 seconds")
  | .requestError m => errDict ("Request error: " ++ m)
  | .jsonError => errDict "Invalid JSON response from FMP API"
  | .otherError m => errDict ("Unexpected error: " ++ m)

/-- Network oracle: the outcome of the network phase for each endpoint. -/
def Net : Type := String → HttpOutcome

/-- Python `str.isspace` character class for ASCII, as used by `strip()`. -/
def pyIsSpace (c : Char) : Bool :=
  c = ' ' || c = '\t' || c = '\n' || c = '\x0d' || c = '\x0b' || c = '\x0c'

/-- Python `ticker.strip().upper()` over the character list. -/
def pyStripUpper (s : String) : String :=
  ⟨(((s.data.dropWhile pyIsSpace).reverse.dropWhile pyIsSpace).reverse).map Char.toUpper⟩

/-! ## The four normalizer functions

Each is embedded as a function from the network oracle and the ticker
argument to the returned record, paired with the list of endpoints for
which a client request was issued (in order). Tickers are strings, so the
`isinstance(ticker, str)` half of each guard holds and `not ticker` means
the empty string. `strip().upper()` is `pyStripUpper`. -/

/-- `FMPTool.get_company_profile` (lines 127-198). -/
def get_company_profile (net : Net) (ticker : String) : PyVal × List String :=
  if ticker == "" then
    (.dict [("error", .str "Invalid ticker symbol"),
            ("name", .str "Unknown"),
            ("industry", .str "Unknown"),
            ("sector", .str "Unknown"),
            ("description", .str "Please provide a valid ticker symbol (e.g., AAPL, MSFT)")], [])
  else
    let t := pyStripUpper ticker
    if t == "" then
      (.dict [("error", .str "Empty ticker symbol"),
              ("name", .str "Unknown"),
              ("description", .str "Please provide a valid ticker symbol")], [])
    else
      let ep := "profile/" ++ t
      let data := make_request_result ep (net ep)
      if data.isDict && data.hasKey "error" then
        (.dict [("error", data.get "error"),
                ("name", .str t),
                ("industry", .str "Unknown"),
                ("sector", .str "Unknown"),
                ("description", .str ("Could not retrieve company profile. " ++ (data.get "error").pyStr))], [ep])
      else match data with
      | .list (profile :: _) =>
        (.dict [("name", profile.getD "companyName" (.str t)),
                ("industry", profile.getD "industry" (.str "Unknown")),
                ("sector", profile.getD "sector" (.str "Unknown")),
                ("description", profile.getD "description" (.str "No description available")),
                ("ceo", profile.getD "ceo" (.str "Unknown")),
                ("website", profile.getD "website" (.str "Unknown")),
                ("employees", profile.getD "fullTimeEmployees" (.str "Unknown")),
                ("exchange", profile.getD "exchange" (.str "Unknown")),
                ("marketCap", profile.getD "mktCap" (.str "Unknown")),
                ("symbol", .str t)], [ep])
      | _ =>
        (.dict [("error", .str "No company profile found"),
                ("name", .str t),
                ("industry", .str "Unknown"),
                ("sector", .str "Unknown"),
                ("description", .str ("No profile data was found for " ++ t ++ ". This might be an invalid ticker symbol or the company is not covered by the data provider."))], [ep])

/-- `FMPTool.get_stock_quote` (lines 200-251). -/
def get_stock_quote (net : Net) (ticker : String) : PyVal × List String :=
  if ticker == "" then
    (errDict "Invalid ticker symbol", [])
  else
    let t := pyStripUpper ticker
    let ep := "quote/" ++ t
    let data := make_request_result ep (net ep)
    if data.isDict && data.hasKey "error" then
      (.dict [("error", data.get "error")], [ep])
    else match data with
    | .list (quote :: _) =>
      (.dict [("price", quote.get "price"),
              ("change", quote.get "change"),
              ("percentChange", quote.get "changesPercentage"),
              ("dayLow", quote.get "dayLow"),
              ("dayHigh", quote.get "dayHigh"),
              ("yearLow", quote.get "yearLow"),
              ("yearHigh", quote.get "yearHigh"),
              ("marketCap", quote.get "marketCap"),
              ("volume", quote.get "volume"),
              ("avgVolume", quote.get "avgVolume"),
              ("pe", quote.get "pe"),
              ("eps", quote.get "eps"),
              ("symbol", .str t)], [ep])
    | _ =>
      (.dict [("error", .str "No stock quote found"),
              ("symbol", .str t)], [ep])

/-- Python `x[0] if isinstance(x, list) and len(x) > 0 else {}`. -/
def firstOrEmptyDict : PyVal → PyVal
  | .list (x :: _) => x
  | _ => .dict []

/-- Whether a `_make_request` result counts as failed in
`get_key_financials`: `isinstance(x, dict) and "error" in x`. -/
def isErrResult (v : PyVal) : Bool := v.isDict && v.hasKey "error"

/-- `FMPTool.get_key_financials` (lines 253-339). -/
def get_key_financials (net : Net) (ticker : String) : PyVal × List String :=
  if ticker == "" then
    (errDict "Invalid ticker symbol", [])
  else
    let t := pyStripUpper ticker
    let epRatios := "ratios-ttm/" ++ t
    let epIncome := "income-statement/" ++ t
    let epBalance := "balance-sheet-statement/" ++ t
    let epCash := "cash-flow-statement/" ++ t
    let ratios := make_request_result epRatios (net epRatios)
    let income := make_request_result epIncome (net epIncome)
    let balance := make_request_result epBalance (net epBalance)
    let cash_flow := make_request_result epCash (net epCash)
    let eps := [epRatios, epIncome, epBalance, epCash]
    if isErrResult ratios && isErrResult income && isErrResult balance && isErrResult cash_flow then
      (errDict "Could not retrieve financial data", eps)
    else
      let fratios := firstOrEmptyDict ratios
      let fincome := firstOrEmptyDict income
      let fbalance := firstOrEmptyDict balance
      let fcash := firstOrEmptyDict cash_flow
      (.dict [("profitability", .dict
                 [("grossMargin", fratios.get "grossProfitMarginTTM"),
                  ("operatingMargin", fratios.get "operatingProfitMarginTTM"),
                  ("netMargin", fratios.get "netProfitMarginTTM"),
                  ("roe", fratios.get "returnOnEquityTTM"),
                  ("roa", fratios.get "returnOnAssetsTTM")]),
              ("valuation", .dict
                 [("pe", fratios.get "priceEarningsRatioTTM"),
                  ("pb", fratios.get "priceToBookRatioTTM"),
                  ("ps", fratios.get "priceToSalesRatioTTM"),
                  ("pfcf", fratios.get "priceToFreeCashFlowsRatioTTM")]),
              ("health", .dict
                 [("currentRatio", fratios.get "currentRatioTTM"),
                  ("debtToEquity", fratios.get "debtEquityRatioTTM"),
                  ("interestCoverage", fratios.get "interestCoverageTTM")]),
              ("growth", .dict
                 [("revenue", fincome.get "revenue"),
                  ("netIncome", fincome.get "netIncome"),
                  ("totalAssets", fbalance.get "totalAssets"),
                  ("totalDebt", fbalance.get "totalDebt"),
                  ("freeCashFlow", fcash.get "freeCashFlow")]),
              ("symbol", .str t)], eps)

/-- `FMPTool.get_news_sentiment` (lines 341-393). -/
def get_news_sentiment (net : Net) (ticker : String) : PyVal × List String :=
  if ticker == "" then
    (.dict [("error", .str "Invalid ticker symbol"), ("articles", .list [])], [])
  else
    let t := pyStripUpper ticker
    let ep := "stock_news"
    let data := make_request_result ep (net ep)
    if data.isDict && data.hasKey "error" then
      (.dict [("error", data.get "error"), ("articles", .list []), ("symbol", .str t)], [ep])
    else match data with
    | .list items =>
      let articles := items.map (fun a =>
        PyVal.dict [("title", a.getD "title" (.str "No title")),
                    ("date", a.getD "publishedDate" (.str "Unknown date")),
                    ("source", a.getD "site" (.str "Unknown source")),
                    ("url", a.getD "url" (.str "#")),
                    ("summary", a.getD "text" (.str "No summary available"))])
      (.dict [("articles", .list articles),
              ("count", .num articles.length),
              ("symbol", .str t)], [ep])
    | _ =>
      (.dict [("error", .str "No news found"),
              ("articles", .list []),
              ("symbol", .str t)], [ep])

/-! ## Shape guards

Python raises `AttributeError` on `x.get` when a list payload holds
non-dict elements; the theorems about the normalizers therefore carry these
guards so that every covered execution is one the Python code completes. -/

/-- First element of a list payload, if any, is a dict. -/
def firstIsDict : PyVal → Bool
  | .list (x :: _) => x.isDict
  | _ => true

/-- Every element of a list payload is a dict. -/
def allDicts : PyVal → Bool
  | .list xs => xs.all PyVal.isDict
  | _ => true

def okFirstDict : HttpOutcome → Bool
  | .ok d => firstIsDict d
  | _ => true

def okAllDicts : HttpOutcome → Bool
  | .ok d => allDicts d
  | _ => true

/-! ## Abbreviations used to state the financials claim -/

/-- The `_make_request` result of one financial sub-request of
`get_key_financials`, for endpoint prefix `pre`. -/
def finSub (net : Net) (ticker : String) (pre : String) : PyVal :=
  make_request_result (pre ++ pyStripUpper ticker) (net (pre ++ pyStripUpper ticker))

/-- The profitability section when the ratios payload is absent. -/
def noneProfitability : PyVal :=
  .dict [("grossMargin", .none), ("operatingMargin", .none), ("netMargin", .none),
         ("roe", .none), ("roa", .none)]

/-- The valuation section when the ratios payload is absent. -/
def noneValuation : PyVal :=
  .dict [("pe", .none), ("pb", .none), ("ps", .none), ("pfcf", .none)]

/-- The health section when the ratios payload is absent. -/
def noneHealth : PyVal :=
  .dict [("currentRatio", .none), ("debtToEquity", .none), ("interestCoverage", .none)]

/-- The growth section as assembled from the income, balance-sheet and
cash-flow sub-results. -/
def growthSection (income balance cash : PyVal) : PyVal :=
  .dict [("revenue", (firstOrEmptyDict income).get "revenue"),
         ("netIncome", (firstOrEmptyDict income).get "netIncome"),
         ("totalAssets", (firstOrEmptyDict balance).get "totalAssets"),
         ("totalDebt", (firstOrEmptyDict balance).get "totalDebt"),
         ("freeCashFlow", (firstOrEmptyDict cash).get "freeCashFlow")]

/-- Concrete oracle for witnesses: the ratios endpoint times out, every
other endpoint returns a one-element list of dicts. -/
def netRatiosFail : Net := fun ep =>
  if ep = "ratios-ttm/AAPL" then .timeout
  else .ok (.list [PyVal.dict [("revenue", .num 5)]])

/-! ## Rate limiting (`FMPTool._make_request`, lines 51-80)

Timestamps are rationals (seconds). The state is the `request_times`
window plus the configured `max_rpm`. The sleep is modelled as advancing
the clock by exactly the requested duration, and the outcome of the
network phase plays no role in the state update — the timestamp is
appended before the request is made, inside the `try`, and every caught
failure leaves it in place. -/

structure RateLimiter where
  max_rpm : ℕ
  request_times : List ℚ

/-- Line 55 / line 66: drop window entries 60 seconds old or older. -/
def prune (now : ℚ) (ts : List ℚ) : List ℚ := ts.filter (fun t => now - t < 60)

/-- Observable behaviour of one `_make_request` call: when it slept, when
the network request was issued, and the window contents at that moment. -/
structure CallResult where
  waited : ℚ
  issue_time : ℚ
  window_at_issue : List ℚ

/-- The rate-limiting phase of `_make_request` (lines 51-73): prune, wait
and re-prune if the window is full, then append the current timestamp.
Returns the call observation and the state left for the next call. -/
def makeRequestTiming (s : RateLimiter) (now : ℚ) : CallResult × RateLimiter :=
  let ts := prune now s.request_times
  if s.max_rpm ≤ ts.length then
    let wait := 60 - (now - ts.headD 0)
    if 0 < wait then
      let now2 := now + wait
      let ts2 := prune now2 ts
      (⟨wait, now2, ts2 ++ [now2]⟩, ⟨s.max_rpm, ts2 ++ [now2]⟩)
    else
      (⟨0, now, ts ++ [now]⟩, ⟨s.max_rpm, ts ++ [now]⟩)
  else
    (⟨0, now, ts ++ [now]⟩, ⟨s.max_rpm, ts ++ [now]⟩)

/-- Full `_make_request`: the rate-limiting phase followed by the
response classification; the returned value depends on the network
outcome, the state update does not. -/
def make_request (s : RateLimiter) (now : ℚ) (endpoint : String) (o : HttpOutcome) :
    PyVal × CallResult × RateLimiter :=
  let (r, s2) := makeRequestTiming s now
  (make_request_result endpoint o, r, s2)

/-- A sequence of `_make_request` calls at the given clock readings. -/
def runCalls : RateLimiter → List ℚ → List CallResult × RateLimiter
  | s, [] => ([], s)
  | s, t :: rest =>
    let p := makeRequestTiming s t
    let q := runCalls p.2 rest
    (p.1 :: q.1, q.2)

/-! ## JSON values, serialization and parsing

`extract_json_like` (`src/tools/helper_functions.py`) and
`process_judge_output` (`src/judge/investment_judge.py`) are built on
`json.dumps` / `json.loads`. Both are modelled here over a JSON value
type: the serializer follows `json.dumps` with its default separators and
escapes, and the parser is a strict recursive-descent reading of the JSON
grammar (numbers restricted to integers, `\uXXXX` escapes limited to the
basic plane) with a character-count fuel bound. -/

inductive JVal where
  | null : JVal
  | bool : Bool → JVal
  | num : Int → JVal
  | str : String → JVal
  | arr : List JVal → JVal
  | obj : List (String × JVal) → JVal

def JVal.isObj : JVal → Bool
  | .obj _ => true
  | _ => false

/-- Opening brace character, `"\x7b"`. -/
def openBrace : Char := Char.ofNat 123

/-- Closing brace character, `"\x7d"`. -/
def closeBrace : Char := Char.ofNat 125

/-- Single-quote character. -/
def quoteChar : Char := Char.ofNat 39

def digitChar (d : Nat) : Char := Char.ofNat (48 + d)

/-- Decimal digits of a natural number, least significant first; empty
for zero. -/
def natToRevDigits : Nat → List Char
  | 0 => []
  | n + 1 => digitChar ((n + 1) % 10) :: natToRevDigits ((n + 1) / 10)
decreasing_by
  exact Nat.div_lt_self (Nat.succ_pos n) (by omega)

def dumpNat (n : Nat) : List Char :=
  if n = 0 then ['0'] else (natToRevDigits n).reverse

def dumpInt (i : Int) : List Char :=
  if i < 0 then '-' :: dumpNat i.natAbs else dumpNat i.natAbs

def hexDigitChar (d : Nat) : Char :=
  if d < 10 then Char.ofNat (48 + d) else Char.ofNat (87 + d)

/-- JSON escaping of one character, following `json.dumps`. -/
def escapeChar (c : Char) : List Char :=
  if c = '"' then ['\\', '"']
  else if c = '\\' then ['\\', '\\']
  else if c = '\n' then ['\\', 'n']
  else if c = '\t' then ['\\', 't']
  else if c = '\x0d' then ['\\', 'r']
  else if c = '\x08' then ['\\', 'b']
  else if c = '\x0c' then ['\\', 'f']
  else if c.toNat < 32 then
    ['\\', 'u', '0', '0', hexDigitChar (c.toNat / 16), hexDigitChar (c.toNat % 16)]
  else [c]

def dumpStringChars (s : String) : List Char :=
  '"' :: ((s.data.map escapeChar).flatten ++ ['"'])

mutual

/-- `json.dumps` of a value, with the default `", "` and `": "`
separators, as a character list. -/
def dumpChars : JVal → List Char
  | .null => "null".data
  | .bool true => "true".data
  | .bool false => "false".data
  | .num i => dumpInt i
  | .str s => dumpStringChars s
  | .arr [] => ['[', ']']
  | .arr (x :: xs) => '[' :: elemsChars x xs
  | .obj [] => [openBrace, closeBrace]
  | .obj (m :: ms) => openBrace :: membersChars m ms
termination_by v => sizeOf v
decreasing_by
  all_goals simp
  all_goals omega

/-- Nonempty array elements rendered with `", "` separators, followed by
the closing bracket. -/
def elemsChars : JVal → List JVal → List Char
  | x, [] => dumpChars x ++ [']']
  | x, y :: ys => dumpChars x ++ ',' :: ' ' :: elemsChars y ys
termination_by x xs => sizeOf x + sizeOf xs
decreasing_by
  all_goals simp
  all_goals omega

/-- Nonempty object members rendered with `": "` and `", "` separators,
followed by the closing brace. -/
def membersChars : (String × JVal) → List (String × JVal) → List Char
  | (k, v), [] => dumpStringChars k ++ ':' :: ' ' :: (dumpChars v ++ [closeBrace])
  | (k, v), m :: ms => dumpStringChars k ++ ':' :: ' ' :: (dumpChars v ++ ',' :: ' ' :: membersChars m ms)
termination_by m ms => sizeOf m + sizeOf ms
decreasing_by
  all_goals simp
  all_goals omega

end

/-- `json.dumps` as a string. -/
def dumps (v : JVal) : String := ⟨dumpChars v⟩

/-- JSON whitespace accepted between tokens by `json.loads`. -/
def isWsChar (c : Char) : Bool :=
  c = ' ' || c = '\t' || c = '\n' || c = '\x0d'

def skipWs : List Char → List Char
  | [] => []
  | c :: cs => if isWsChar c then skipWs cs else c :: cs

def isDigitC (c : Char) : Bool := '0' ≤ c && c ≤ '9'

def digitVal (c : Char) : Nat := c.toNat - 48

def hexVal (c : Char) : Option Nat :=
  if isDigitC c then some (c.toNat - 48)
  else if 'a' ≤ c && c ≤ 'f' then some (c.toNat - 87)
  else if 'A' ≤ c && c ≤ 'F' then some (c.toNat - 55)
  else Option.none

def unescape (c : Char) : Option Char :=
  if c = '"' then some '"'
  else if c = '\\' then some '\\'
  else if c = '/' then some '/'
  else if c = 'n' then some '\n'
  else if c = 't' then some '\t'
  else if c = 'r' then some '\x0d'
  else if c = 'b' then some '\x08'
  else if c = 'f' then some '\x0c'
  else Option.none

/-- Body of a JSON string literal after the opening quote: returns the
decoded characters and the input after the closing quote. Strict mode:
raw control characters are rejected, as `json.loads` does. -/
def parseStringRest : List Char → Option (List Char × List Char)
  | [] => Option.none
  | c :: cs =>
    if c = '"' then some ([], cs)
    else if c = '\\' then
      match cs with
      | 'u' :: h1 :: h2 :: h3 :: h4 :: cs2 =>
        match hexVal h1, hexVal h2, hexVal h3, hexVal h4 with
        | some a, some b, some c3, some d =>
          match parseStringRest cs2 with
          | some (body, r) =>
              some (Char.ofNat (((a * 16 + b) * 16 + c3) * 16 + d) :: body, r)
          | Option.none => Option.none
        | _, _, _, _ => Option.none
      | e :: cs2 =>
        match unescape e with
        | some u =>
          match parseStringRest cs2 with
          | some (body, r) => some (u :: body, r)
          | Option.none => Option.none
        | Option.none => Option.none
      | [] => Option.none
    else if c.toNat < 32 then Option.none
    else
      match parseStringRest cs with
      | some (body, r) => some (c :: body, r)
      | Option.none => Option.none

/-- Maximal leading run of decimal digits. -/
def takeDigits : List Char → List Char × List Char
  | [] => ([], [])
  | c :: cs =>
    if isDigitC c then
      let p := takeDigits cs
      (c :: p.1, p.2)
    else ([], c :: cs)

def digitsToNat (ds : List Char) : Nat :=
  ds.foldl (fun a c => 10 * a + digitVal c) 0

def parseNat (l : List Char) : Option (Nat × List Char) :=
  let p := takeDigits l
  if p.1.isEmpty then Option.none else some (digitsToNat p.1, p.2)

/-- Strict recursive-descent JSON parser with fuel. Arrays and objects
recurse on their tails through a synthetic reopened bracket, so the
recursion is structural in the fuel; a trailing separator before the
closing bracket is rejected, as in `json.loads`. -/
def parseValue : Nat → List Char → Option (JVal × List Char)
  | 0, _ => Option.none
  | f + 1, l =>
    match skipWs l with
    | [] => Option.none
    | c :: cs =>
      if c = 'n' then
        match cs with
        | 'u' :: 'l' :: 'l' :: r => some (.null, r)
        | _ => Option.none
      else if c = 't' then
        match cs with
        | 'r' :: 'u' :: 'e' :: r => some (.bool true, r)
        | _ => Option.none
      else if c = 'f' then
        match cs with
        | 'a' :: 'l' :: 's' :: 'e' :: r => some (.bool false, r)
        | _ => Option.none
      else if c = '"' then
        match parseStringRest cs with
        | some (body, r) => some (.str ⟨body⟩, r)
        | Option.none => Option.none
      else if c = '-' then
        match parseNat cs with
        | some (n, r) => some (.num (-(n : Int)), r)
        | Option.none => Option.none
      else if isDigitC c then
        match parseNat (c :: cs) with
        | some (n, r) => some (.num (n : Int), r)
        | Option.none => Option.none
      else if c = '[' then
        let r2 := skipWs cs
        if r2.head? = some ']' then some (.arr [], r2.tail)
        else
          match parseValue f r2 with
          | some (v, r) =>
            let r3 := skipWs r
            if r3.head? = some ',' then
              if (skipWs r3.tail).head? = some ']' then Option.none
              else
                match parseValue f ('[' :: r3.tail) with
                | some (.arr xs, r4) => some (.arr (v :: xs), r4)
                | _ => Option.none
            else if r3.head? = some ']' then some (.arr [v], r3.tail)
            else Option.none
          | Option.none => Option.none
      else if c = openBrace then
        let r2 := skipWs cs
        if r2.head? = some closeBrace then some (.obj [], r2.tail)
        else if r2.head? = some '"' then
          match parseStringRest r2.tail with
          | some (key, r3) =>
            let r4 := skipWs r3
            if r4.head? = some ':' then
              match parseValue f r4.tail with
              | some (v, r5) =>
                let r6 := skipWs r5
                if r6.head? = some ',' then
                  if (skipWs r6.tail).head? = some closeBrace then Option.none
                  else
                    match parseValue f (openBrace :: r6.tail) with
                    | some (.obj ms, r7) => some (.obj ((⟨key⟩, v) :: ms), r7)
                    | _ => Option.none
                else if r6.head? = some closeBrace then some (.obj [(⟨key⟩, v)], r6.tail)
                else Option.none
              | Option.none => Option.none
            else Option.none
          | Option.none => Option.none
        else Option.none
      else Option.none

/-- A character list that does not start with a digit (so a greedy number
parse just before it cannot swallow it). -/
def digitFree : List Char → Bool
  | [] => true
  | c :: _ => !isDigitC c

/-- `json.loads` over a character list: parse one value and require only
whitespace to remain. -/
def loadsChars (l : List Char) : Option JVal :=
  match parseValue (l.length + 1) l with
  | some (v, r) => if skipWs r = [] then some v else Option.none
  | Option.none => Option.none

/-- `json.loads` on a string (`None` models `json.JSONDecodeError`). -/
def loads (s : String) : Option JVal := loadsChars s.data

/-- Python `json_str.replace("'", '"')`. -/
def replaceQuotes (l : List Char) : List Char :=
  l.map (fun c => if c = quoteChar then '"' else c)

/-- The `re.search(r'\x7b.*\x7d', text, re.DOTALL)` match: from the first
opening brace to the last closing brace, when that span is nonempty. -/
def braceSub (l : List Char) : Option (List Char) :=
  let l1 := l.dropWhile (fun c => c ≠ openBrace)
  let l2 := (l1.reverse.dropWhile (fun c => c ≠ closeBrace)).reverse
  if l2.isEmpty then Option.none else some l2

/-- `extract_json_like` (`helper_functions.py`, lines 51-81): strict
parse of the whole text, else strict parse of the brace-delimited
substring with single quotes replaced by double quotes, else the empty
dict. -/
def extract_json_like (text : String) : JVal :=
  if text = "" then .obj []
  else
    match loads text with
    | some v => v
    | Option.none =>
      match braceSub text.data with
      | some sub =>
        match loadsChars (replaceQuotes sub) with
        | some v => v
        | Option.none => .obj []
      | Option.none => .obj []

/-! ## Judge output interpretation (`investment_judge.py`, lines 79-98) -/

/-- The JSON-extraction tier of `process_judge_output` on a string judge
output: parse the brace-delimited substring if braces are present
(`re.search(r'(\x7b.*\x7d)', ...)`), else parse the whole string; no
quote substitution; `None` models reaching the `json.JSONDecodeError`
handler, where no structured record is produced. -/
def process_judge_parse (s : String) : Option JVal :=
  match braceSub s.data with
  | some sub => loadsChars sub
  | Option.none => loadsChars s.data

def jLookupD (kvs : List (String × JVal)) (k : String) (d : JVal) : JVal :=
  match kvs.find? (fun p => p.1 == k) with
  | some p => p.2
  | Option.none => d

/-- Python `d.get(k, default)` on a JSON object. -/
def JVal.getD : JVal → String → JVal → JVal
  | .obj kvs, k, d => jLookupD kvs k d
  | _, _, d => d

/-- The `rating` / `confidence` / `justification` fields read from the
parsed judge record, with the code's defaults. -/
def process_judge_fields (j : JVal) : JVal × JVal × JVal :=
  (j.getD "rating" (.str "N/A"),
   j.getD "confidence" (.str "Medium"),
   j.getD "justification" (.str "No justification provided."))

/-! ## The analysis pipeline boundary (`src/analysis.py`)

`run_company_analysis` wraps the whole pipeline in one `try`. The
effectful steps inside the `try` (FMP tool construction, the two crew
executions, token counting) are opaque external collaborators whose
outcomes — a value, or a raised exception — are supplied by an
environment; `extract_agent_outputs` catches internally and always
returns a triple. The embedding keeps the code's control flow: the first
raised exception aborts the body, is caught once at the top, and is
converted to the error report. Clock readings are supplied by the
environment as well (`time.time()` at entry, at the success return and at
the handler). -/

structure AnalysisConfig where
  model : String
  depth : String
  process_type : String
  investment_style : String

structure PipelineEnv where
  start_time : ℚ
  fmp_init : Except String Unit
  initial_kickoff : Except String String
  extracted : PyVal × PyVal × PyVal
  judge_kickoff : Except String String
  token_count : Except String ℚ
  end_time : ℚ
  fail_time : ℚ

/-- The `config` sub-dict of the returned report (same shape on the
success and the failure path). -/
def configDict (cfg : AnalysisConfig) : PyVal :=
  .dict [("model", .str cfg.model), ("depth", .str cfg.depth),
         ("process_type", .str cfg.process_type),
         ("investment_style", .str cfg.investment_style)]

/-- The body of the `try` block of `run_company_analysis` (lines 58-324):
each effectful step either yields its value or raises. -/
def pipelineBody (cfg : AnalysisConfig) (ticker : String) (env : PipelineEnv) :
    Except String PyVal := do
  let _ ← env.fmp_init
  let initial ← env.initial_kickoff
  let fin := env.extracted.1
  let prof := env.extracted.2.1
  let news := env.extracted.2.2
  let judge ← env.judge_kickoff
  let tokens ← env.token_count
  pure (.dict [("ticker", .str ticker),
               ("profile_analysis", prof),
               ("financial_analysis", fin),
               ("news_analysis", news),
               ("investment_recommendation", .str judge),
               ("execution_time", .num (env.end_time - env.start_time)),
               ("token_usage", .num tokens),
               ("config", configDict cfg),
               ("raw_outputs", .dict [("initial_results", .str initial),
                                      ("judge_results", .str judge)])])

/-- `run_company_analysis` (lines 21-341): the body, with the single
top-level `except Exception` converting any raised exception into the
four-key error report. -/
def run_company_analysis (cfg : AnalysisConfig) (ticker : String)
    (env : PipelineEnv) : PyVal :=
  match pipelineBody cfg ticker env with
  | .ok r => r
  | .error e =>
    .dict [("ticker", .str ticker),
           ("error", .str ("Analysis failed: " ++ e)),
           ("execution_time", .num (env.fail_time - env.start_time)),
           ("config", configDict cfg)]

/-- Concrete environment for witnesses: the initial crew execution
raises. -/
def envCrewRaises : PipelineEnv :=
  ⟨10, .ok (), .error "boom", (.dict [], .dict [], .dict []), .ok "judge", .ok 7, 95, 52⟩

/-! # Theorems -/

/-! ## Helper lemmas -/

/-- A result that counts as failed is a dict. -/
theorem isErr_dict (v : PyVal) (h : isErrResult v = true) : ∃ kvs, v = .dict kvs := by
  cases v <;> simp [isErrResult, PyVal.isDict] at h ⊢

/-! ## C3 — presence of the `symbol` field -/

/-- C3, counterexample: for the valid ticker `"AAPL"`, when the upstream
request fails (timeout), `get_company_profile` returns an error record
with no `"symbol"` key, refuting the claim that every normalizer returns
a mapping containing `"symbol"` on every return path. -/
theorem profile_error_path_lacks_symbol :
    pyStripUpper "AAPL" = "AAPL" ∧
    (get_company_profile (fun _ => .timeout) "AAPL").1.hasKey "error" = true ∧
    (get_company_profile (fun _ => .timeout) "AAPL").1.hasKey "symbol" = false :=
  ⟨rfl, rfl, rfl⟩

/-- C3, amended: for a ticker that normalizes to a non-empty string,
`get_news_sentiment` carries `"symbol"` on every return path, while
`get_company_profile`, `get_stock_quote` and `get_key_financials` carry
it on every return path that is not an error record (their error paths
may omit it). The `okFirstDict` / `okAllDicts` guards restrict to
payload shapes on which the Python attribute accesses succeed. -/
theorem normalizers_symbol_amended (net : Net) (ticker : String)
    (h1 : ticker ≠ "") (h2 : pyStripUpper ticker ≠ "")
    (_hn : okAllDicts (net "stock_news") = true)
    (_hp : okFirstDict (net ("profile/" ++ pyStripUpper ticker)) = true)
    (_hq : okFirstDict (net ("quote/" ++ pyStripUpper ticker)) = true)
    (_hf1 : okFirstDict (net ("ratios-ttm/" ++ pyStripUpper ticker)) = true)
    (_hf2 : okFirstDict (net ("income-statement/" ++ pyStripUpper ticker)) = true)
    (_hf3 : okFirstDict (net ("balance-sheet-statement/" ++ pyStripUpper ticker)) = true)
    (_hf4 : okFirstDict (net ("cash-flow-statement/" ++ pyStripUpper ticker)) = true) :
    (get_news_sentiment net ticker).1.hasKey "symbol" = true ∧
    ((get_company_profile net ticker).1.hasKey "error" = false →
      (get_company_profile net ticker).1.hasKey "symbol" = true) ∧
    ((get_stock_quote net ticker).1.hasKey "error" = false →
      (get_stock_quote net ticker).1.hasKey "symbol" = true) ∧
    ((get_key_financials net ticker).1.hasKey "error" = false →
      (get_key_financials net ticker).1.hasKey "symbol" = true) := by
  have hb : (ticker == "") = false := by simp [h1]
  have hb2 : (pyStripUpper ticker == "") = false := by simp [h2]
  refine ⟨?_, ?_, ?_, ?_⟩
  · simp only [get_news_sentiment, hb, Bool.false_eq_true, if_false]
    split
    · simp [PyVal.hasKey]
    · split
      · simp [PyVal.hasKey]
      · simp [PyVal.hasKey]
  · have hor : ((get_company_profile net ticker).1.hasKey "error" ||
        (get_company_profile net ticker).1.hasKey "symbol") = true := by
      simp only [get_company_profile, hb, hb2, Bool.false_eq_true, if_false]
      split
      · simp [PyVal.hasKey]
      · split
        · simp [PyVal.hasKey]
        · simp [PyVal.hasKey]
    intro herr
    rcases (Bool.or_eq_true _ _).mp hor with h | h
    · rw [herr] at h
      exact absurd h (by simp)
    · exact h
  · have hor : ((get_stock_quote net ticker).1.hasKey "error" ||
        (get_stock_quote net ticker).1.hasKey "symbol") = true := by
      simp only [get_stock_quote, hb, Bool.false_eq_true, if_false]
      split
      · simp [PyVal.hasKey]
      · split
        · simp [PyVal.hasKey]
        · simp [PyVal.hasKey]
    intro herr
    rcases (Bool.or_eq_true _ _).mp hor with h | h
    · rw [herr] at h
      exact absurd h (by simp)
    · exact h
  · have hor : ((get_key_financials net ticker).1.hasKey "error" ||
        (get_key_financials net ticker).1.hasKey "symbol") = true := by
      simp only [get_key_financials, hb, Bool.false_eq_true, if_false]
      split
      · simp [errDict, PyVal.hasKey]
      · simp [PyVal.hasKey]
    intro herr
    rcases (Bool.or_eq_true _ _).mp hor with h | h
    · rw [herr] at h
      exact absurd h (by simp)
    · exact h

/-- C3, witness for the amended theorem at the concrete input used by the
counterexample (all endpoints time out). -/
theorem normalizers_symbol_amended_witness :
    (get_news_sentiment (fun _ => .timeout) "AAPL").1.hasKey "symbol" = true ∧
    ((get_company_profile (fun _ => .timeout) "AAPL").1.hasKey "error" = false →
      (get_company_profile (fun _ => .timeout) "AAPL").1.hasKey "symbol" = true) ∧
    ((get_stock_quote (fun _ => .timeout) "AAPL").1.hasKey "error" = false →
      (get_stock_quote (fun _ => .timeout) "AAPL").1.hasKey "symbol" = true) ∧
    ((get_key_financials (fun _ => .timeout) "AAPL").1.hasKey "error" = false →
      (get_key_financials (fun _ => .timeout) "AAPL").1.hasKey "symbol" = true) :=
  normalizers_symbol_amended (fun _ => .timeout) "AAPL" (by decide) (by decide)
    rfl rfl rfl rfl rfl rfl rfl

/-! ## C4 — empty news payload -/

/-- C4, counterexample: for ticker `"AAPL"`, when the news endpoint
responds with an empty article list, the returned record carries an
`"error"` key and no `"count"` key, refuting the claim that an empty
result list is treated as valid data. -/
theorem news_empty_list_yields_error_record :
    (get_news_sentiment (fun _ => .ok (.list [])) "AAPL").1 =
      .dict [("error", .str "Empty response from FMP API for stock_news"),
             ("articles", .list []), ("symbol", .str "AAPL")] ∧
    (get_news_sentiment (fun _ => .ok (.list [])) "AAPL").1.hasKey "count" = false :=
  ⟨rfl, rfl⟩

/-- C4, amended: an empty news article list is converted by
`_make_request`'s empty-payload check into an error value, so
`get_news_sentiment` returns the error record (with empty `articles` and
the symbol, but no `count`) rather than a valid empty result. -/
theorem news_empty_payload_amended (net : Net) (ticker : String) (h1 : ticker ≠ "")
    (h2 : net "stock_news" = .ok (.list [])) :
    (get_news_sentiment net ticker).1 =
      .dict [("error", .str "Empty response from FMP API for stock_news"),
             ("articles", .list []),
             ("symbol", .str (pyStripUpper ticker))] := by
  have hb : (ticker == "") = false := by simp [h1]
  simp [get_news_sentiment, hb, h2, make_request_result, errDict,
    PyVal.isDict, PyVal.hasKey, PyVal.truthy, PyVal.get, PyVal.getD, lookupD]

/-- C4, witness for the amended theorem at the counterexample's input. -/
theorem news_empty_payload_amended_witness :
    (get_news_sentiment (fun _ => .ok (.list [])) "AAPL").1 =
      .dict [("error", .str "Empty response from FMP API for stock_news"),
             ("articles", .list []),
             ("symbol", .str (pyStripUpper "AAPL"))] :=
  news_empty_payload_amended (fun _ => .ok (.list [])) "AAPL" (by decide) rfl

/-! ## C5 — aggregate failure of the financials normalizer -/

/-- C5: `get_key_financials` returns the aggregate error record exactly
when all four sub-requests fail; and when the ratios sub-request fails
while the other three succeed, the result is not an error: the
profitability, valuation and health sections are all-`None`, the growth
section is assembled from the income / balance-sheet / cash-flow data,
and the symbol is present. The `okFirstDict` guards restrict to payload
shapes on which the Python `x[0].get` attribute accesses succeed, so
every covered execution is one the Python code completes. -/
theorem financials_aggregate_sections (net : Net) (ticker : String) (h1 : ticker ≠ "")
    (_g1 : okFirstDict (net ("ratios-ttm/" ++ pyStripUpper ticker)) = true)
    (_g2 : okFirstDict (net ("income-statement/" ++ pyStripUpper ticker)) = true)
    (_g3 : okFirstDict (net ("balance-sheet-statement/" ++ pyStripUpper ticker)) = true)
    (_g4 : okFirstDict (net ("cash-flow-statement/" ++ pyStripUpper ticker)) = true) :
    ((get_key_financials net ticker).1 = errDict "Could not retrieve financial data" ↔
      (isErrResult (finSub net ticker "ratios-ttm/") = true ∧
       isErrResult (finSub net ticker "income-statement/") = true ∧
       isErrResult (finSub net ticker "balance-sheet-statement/") = true ∧
       isErrResult (finSub net ticker "cash-flow-statement/") = true)) ∧
    (isErrResult (finSub net ticker "ratios-ttm/") = true →
     isErrResult (finSub net ticker "income-statement/") = false →
     isErrResult (finSub net ticker "balance-sheet-statement/") = false →
     isErrResult (finSub net ticker "cash-flow-statement/") = false →
      (get_key_financials net ticker).1.hasKey "error" = false ∧
      (get_key_financials net ticker).1.get "profitability" = noneProfitability ∧
      (get_key_financials net ticker).1.get "valuation" = noneValuation ∧
      (get_key_financials net ticker).1.get "health" = noneHealth ∧
      (get_key_financials net ticker).1.get "growth" =
        growthSection (finSub net ticker "income-statement/")
          (finSub net ticker "balance-sheet-statement/")
          (finSub net ticker "cash-flow-statement/") ∧
      (get_key_financials net ticker).1.get "symbol" = .str (pyStripUpper ticker)) := by
  have hb : (ticker == "") = false := by simp [h1]
  constructor
  · simp only [get_key_financials, hb, Bool.false_eq_true, if_false, finSub]
    split
    · rename_i hcond
      simp only [Bool.and_eq_true] at hcond
      exact iff_of_true rfl ⟨hcond.1.1.1, hcond.1.1.2, hcond.1.2, hcond.2⟩
    · rename_i hcond
      constructor
      · intro habs
        simp [errDict] at habs
      · rintro ⟨hA, hB, hC, hD⟩
        exact absurd (by rw [hA, hB, hC, hD]; rfl) hcond
  · intro hR hI hB hC
    simp only [finSub] at hR hI hB hC
    obtain ⟨kvs, hkvs⟩ := isErr_dict _ hR
    simp only [get_key_financials, hb, Bool.false_eq_true, if_false, hR, hI, hB, hC,
      Bool.true_and, Bool.false_and, Bool.and_false, Bool.and_true]
    rw [hkvs]
    simp [PyVal.hasKey, PyVal.get, PyVal.getD, lookupD, firstOrEmptyDict, List.find?,
      noneProfitability, noneValuation, noneHealth, growthSection, finSub, hkvs]

/-- C5, witness: with the ratios endpoint timing out and the other three
returning a one-element list of dicts (so the shape guards hold), the
partial-failure branch of the theorem applies. -/
theorem financials_aggregate_sections_witness :
    (get_key_financials netRatiosFail "AAPL").1.hasKey "error" = false ∧
    (get_key_financials netRatiosFail "AAPL").1.get "profitability" = noneProfitability ∧
    (get_key_financials netRatiosFail "AAPL").1.get "valuation" = noneValuation ∧
    (get_key_financials netRatiosFail "AAPL").1.get "health" = noneHealth ∧
    (get_key_financials netRatiosFail "AAPL").1.get "growth" =
      growthSection (finSub netRatiosFail "AAPL" "income-statement/")
        (finSub netRatiosFail "AAPL" "balance-sheet-statement/")
        (finSub netRatiosFail "AAPL" "cash-flow-statement/") ∧
    (get_key_financials netRatiosFail "AAPL").1.get "symbol" = .str (pyStripUpper "AAPL") :=
  (financials_aggregate_sections netRatiosFail "AAPL" (by decide)
    (by decide) (by decide) (by decide) (by decide)).2 rfl rfl rfl rfl

/-! ## C8 — ticker validation short-circuit -/

/-- C8, counterexample: the whitespace-only ticker `" "` normalizes to the
empty string, yet `get_stock_quote` issues a client request (endpoint
`"quote/"`), refuting the claim that each of the four normalizers
short-circuits without issuing any client request. -/
theorem quote_whitespace_ticker_issues_request :
    pyStripUpper " " = "" ∧
    (get_stock_quote (fun _ => .timeout) " ").2 = ["quote/"] :=
  ⟨rfl, rfl⟩

/-- C8, amended: all four normalizers short-circuit to an error record
with no request for the empty-string ticker, and `get_company_profile`
also re-validates after normalization and short-circuits on a
whitespace-only ticker; but `get_stock_quote`, `get_key_financials` and
`get_news_sentiment` do issue requests (with the empty normalized symbol
in the endpoint) for a whitespace-only ticker. -/
theorem ticker_validation_amended (net : Net) (ticker : String)
    (h1 : ticker ≠ "") (h2 : pyStripUpper ticker = "") :
    ((get_company_profile net "").2 = [] ∧ (get_company_profile net "").1.hasKey "error" = true) ∧
    ((get_stock_quote net "").2 = [] ∧ (get_stock_quote net "").1.hasKey "error" = true) ∧
    ((get_key_financials net "").2 = [] ∧ (get_key_financials net "").1.hasKey "error" = true) ∧
    ((get_news_sentiment net "").2 = [] ∧ (get_news_sentiment net "").1.hasKey "error" = true) ∧
    ((get_company_profile net ticker).2 = [] ∧
      (get_company_profile net ticker).1 =
        .dict [("error", .str "Empty ticker symbol"),
               ("name", .str "Unknown"),
               ("description", .str "Please provide a valid ticker symbol")]) ∧
    (get_stock_quote net ticker).2 = ["quote/"] ∧
    (get_key_financials net ticker).2 =
      ["ratios-ttm/", "income-statement/", "balance-sheet-statement/", "cash-flow-statement/"] ∧
    (get_news_sentiment net ticker).2 = ["stock_news"] := by
  have hb : (ticker == "") = false := by simp [h1]
  have hb2 : (pyStripUpper ticker == "") = true := by simp [h2]
  refine ⟨⟨rfl, rfl⟩, ⟨rfl, rfl⟩, ⟨rfl, rfl⟩, ⟨rfl, rfl⟩, ?_, ?_, ?_, ?_⟩
  · simp [get_company_profile, hb, hb2]
  · simp only [get_stock_quote, hb, Bool.false_eq_true, if_false, h2]
    simp only [String.append_empty]
    split
    · rfl
    · split <;> rfl
  · simp only [get_key_financials, hb, Bool.false_eq_true, if_false, h2]
    split <;> simp
  · simp only [get_news_sentiment, hb, Bool.false_eq_true, if_false, h2]
    split
    · simp
    · split <;> simp

/-- C8, witness for the amended theorem at the counterexample's input. -/
theorem ticker_validation_amended_witness :
    ((get_company_profile (fun _ => .timeout) "").2 = [] ∧
      (get_company_profile (fun _ => .timeout) "").1.hasKey "error" = true) ∧
    ((get_stock_quote (fun _ => .timeout) "").2 = [] ∧
      (get_stock_quote (fun _ => .timeout) "").1.hasKey "error" = true) ∧
    ((get_key_financials (fun _ => .timeout) "").2 = [] ∧
      (get_key_financials (fun _ => .timeout) "").1.hasKey "error" = true) ∧
    ((get_news_sentiment (fun _ => .timeout) "").2 = [] ∧
      (get_news_sentiment (fun _ => .timeout) "").1.hasKey "error" = true) ∧
    ((get_company_profile (fun _ => .timeout) " ").2 = [] ∧
      (get_company_profile (fun _ => .timeout) " ").1 =
        .dict [("error", .str "Empty ticker symbol"),
               ("name", .str "Unknown"),
               ("description", .str "Please provide a valid ticker symbol")]) ∧
    (get_stock_quote (fun _ => .timeout) " ").2 = ["quote/"] ∧
    (get_key_financials (fun _ => .timeout) " ").2 =
      ["ratios-ttm/", "income-statement/", "balance-sheet-statement/", "cash-flow-statement/"] ∧
    (get_news_sentiment (fun _ => .timeout) " ").2 = ["stock_news"] :=
  ticker_validation_amended (fun _ => .timeout) " " (by decide) rfl

/-! ## Rate limiter lemmas -/

/-- Pruning removes nothing when every entry is younger than 60 seconds. -/
theorem prune_eq_self (now : ℚ) (ts : List ℚ) (h : ∀ x ∈ ts, now - x < 60) :
    prune now ts = ts := by
  rw [prune, List.filter_eq_self]
  intro a ha
  simpa using h a ha

theorem headD_mem (ts : List ℚ) (h : ts ≠ []) : ts.headD 0 ∈ ts := by
  cases ts with
  | nil => exact absurd rfl h
  | cons a l => simp

theorem filter_length_lt (p : ℚ → Bool) (l : List ℚ) (x : ℚ) (hx : x ∈ l) (hp : p x = false) :
    (l.filter p).length < l.length := by
  induction l with
  | nil => cases hx
  | cons a l ih =>
    rcases List.mem_cons.mp hx with rfl | hx2
    · have := List.length_filter_le p l
      simp only [List.filter_cons, hp, Bool.false_eq_true, if_false, List.length_cons]
      omega
    · by_cases hpa : p a = true
      · have := ih hx2
        simp only [List.filter_cons, hpa, if_true, List.length_cons]
        omega
      · have := ih hx2
        simp only [Bool.not_eq_true] at hpa
        simp only [List.filter_cons, hpa, Bool.false_eq_true, if_false, List.length_cons]
        omega

theorem mem_of_mem_prune {now : ℚ} {ts : List ℚ} {x : ℚ} (h : x ∈ prune now ts) : x ∈ ts :=
  List.mem_of_mem_filter h

theorem age_of_mem_prune {now : ℚ} {ts : List ℚ} {x : ℚ} (h : x ∈ prune now ts) :
    now - x < 60 := by
  have := List.of_mem_filter h
  simpa using this

theorem prune_length_le (now : ℚ) (ts : List ℚ) : (prune now ts).length ≤ ts.length :=
  List.length_filter_le _ _

/-- One call's window shape: prune, re-prune at the issue time, append the
issue timestamp; the state left behind is exactly the issued window. -/
theorem step_shape (s : RateLimiter) (now : ℚ) :
    (makeRequestTiming s now).1.window_at_issue =
      prune (makeRequestTiming s now).1.issue_time (prune now s.request_times) ++
        [(makeRequestTiming s now).1.issue_time] ∧
    (makeRequestTiming s now).2.request_times = (makeRequestTiming s now).1.window_at_issue ∧
    (makeRequestTiming s now).2.max_rpm = s.max_rpm := by
  simp only [makeRequestTiming]
  split
  · split
    · exact ⟨rfl, rfl, rfl⟩
    · refine ⟨?_, rfl, rfl⟩
      dsimp only
      rw [prune_eq_self now (prune now s.request_times) (fun x hx => age_of_mem_prune hx)]
  · refine ⟨?_, rfl, rfl⟩
    dsimp only
    rw [prune_eq_self now (prune now s.request_times) (fun x hx => age_of_mem_prune hx)]

/-- Every window entry at issue time is younger than 60 seconds. -/
theorem step_ages (s : RateLimiter) (now : ℚ) :
    ∀ t ∈ (makeRequestTiming s now).1.window_at_issue,
      (makeRequestTiming s now).1.issue_time - t < 60 := by
  intro t ht
  rw [(step_shape s now).1] at ht
  rcases List.mem_append.mp ht with h | h
  · exact age_of_mem_prune h
  · simp only [List.mem_singleton] at h
    subst h
    norm_num

/-- One call never pushes the issued window above the budget. -/
theorem step_length (s : RateLimiter) (now : ℚ)
    (hN : 0 < s.max_rpm) (hlen : s.request_times.length ≤ s.max_rpm) :
    (makeRequestTiming s now).1.window_at_issue.length ≤ s.max_rpm := by
  simp only [makeRequestTiming]
  split
  · rename_i hfull
    have hne : prune now s.request_times ≠ [] := by
      intro habs
      rw [habs] at hfull
      simp at hfull
      omega
    have hh0 := headD_mem _ hne
    have hage := age_of_mem_prune hh0
    split
    · rename_i hwait
      dsimp only
      have hdrop : (prune (now + (60 - (now - (prune now s.request_times).headD 0)))
          (prune now s.request_times)).length < (prune now s.request_times).length := by
        apply filter_length_lt _ _ _ hh0
        simp only [decide_eq_false_iff_not, not_lt]
        linarith
      have hfl := prune_length_le now s.request_times
      simp only [List.length_append, List.length_cons, List.length_nil]
      omega
    · rename_i hwait
      exfalso
      push_neg at hwait
      linarith
  · rename_i hfull
    push_neg at hfull
    dsimp only
    simp only [List.length_append, List.length_cons, List.length_nil]
    omega

/-- Budget and freshness hold for every call of a run. -/
theorem runCalls_invariant (times : List ℚ) (s : RateLimiter)
    (hN : 0 < s.max_rpm) (hlen : s.request_times.length ≤ s.max_rpm) :
    (runCalls s times).2.request_times.length ≤ s.max_rpm ∧
    (runCalls s times).2.max_rpm = s.max_rpm ∧
    ∀ r ∈ (runCalls s times).1,
      r.window_at_issue.length ≤ s.max_rpm ∧
      ∀ t ∈ r.window_at_issue, r.issue_time - t < 60 := by
  induction times generalizing s with
  | nil => exact ⟨hlen, rfl, by simp [runCalls]⟩
  | cons t rest ih =>
    have hshape := step_shape s t
    have hL := step_length s t hN hlen
    have hages := step_ages s t
    have hlen2 : (makeRequestTiming s t).2.request_times.length ≤
        (makeRequestTiming s t).2.max_rpm := by
      rw [hshape.2.1, hshape.2.2]
      exact hL
    have hN2 : 0 < (makeRequestTiming s t).2.max_rpm := by
      rw [hshape.2.2]
      exact hN
    have ihr := ih (makeRequestTiming s t).2 hN2 hlen2
    rw [hshape.2.2] at ihr
    refine ⟨?_, ?_, ?_⟩
    · simpa [runCalls] using ihr.1
    · simpa [runCalls] using ihr.2.1
    · intro r hr
      simp only [runCalls, List.mem_cons] at hr
      rcases hr with rfl | hr2
      · exact ⟨hL, hages⟩
      · exact ihr.2.2 r hr2

theorem runCalls_append (s : RateLimiter) (l1 l2 : List ℚ) :
    runCalls s (l1 ++ l2) =
      ((runCalls s l1).1 ++ (runCalls (runCalls s l1).2 l2).1,
       (runCalls (runCalls s l1).2 l2).2) := by
  induction l1 generalizing s with
  | nil => simp [runCalls]
  | cons t l ih => simp [runCalls, ih]

/-- A run that stays strictly under the budget, all calls within one
60-second span: nothing is pruned, nobody waits, the window accumulates
every timestamp. -/
theorem run_under_budget (l : List ℚ) : ∀ (w : List ℚ) (N : ℕ),
    w.length + l.length ≤ N →
    (∀ x ∈ w, ∀ y ∈ l, y - x < 60) →
    (∀ a ∈ l, ∀ b ∈ l, b - a < 60) →
    (runCalls ⟨N, w⟩ l).2 = ⟨N, w ++ l⟩ ∧
    (runCalls ⟨N, w⟩ l).1.length = l.length ∧
    ∀ r ∈ (runCalls ⟨N, w⟩ l).1, r.waited = 0 := by
  induction l with
  | nil =>
    intro w N _ _ _
    exact ⟨by simp [runCalls], by simp [runCalls], by simp [runCalls]⟩
  | cons t rest ih =>
    intro w N hlen hwl hll
    have hstep : makeRequestTiming ⟨N, w⟩ t = (⟨0, t, w ++ [t]⟩, ⟨N, w ++ [t]⟩) := by
      simp only [makeRequestTiming]
      have hpr : prune t w = w :=
        prune_eq_self t w (fun x hx => hwl x hx t (by simp))
      rw [hpr]
      have : ¬ (N ≤ w.length) := by
        simp only [List.length_cons] at hlen
        omega
      simp [this]
    have ihr := ih (w ++ [t]) N
      (by simp only [List.length_append, List.length_cons, List.length_nil] at hlen ⊢; omega)
      (by
        intro x hx y hy
        rcases List.mem_append.mp hx with h | h
        · exact hwl x h y (List.mem_cons_of_mem t hy)
        · simp only [List.mem_singleton] at h
          subst h
          exact hll x (by simp) y (List.mem_cons_of_mem x hy))
      (by
        intro a ha b hb
        exact hll a (List.mem_cons_of_mem t ha) b (List.mem_cons_of_mem t hb))
    refine ⟨?_, ?_, ?_⟩
    · simp only [runCalls, hstep]
      rw [ihr.1]
      simp
    · simp only [runCalls, hstep, List.length_cons]
      rw [ihr.2.1]
    · intro r hr
      simp only [runCalls, hstep, List.mem_cons] at hr
      rcases hr with rfl | hr2
      · rfl
      · exact ihr.2.2 r hr2


/-- One call, from a reachable state: budget respected, all entries
within the trailing 60 seconds, window shape, and the clock does not go
backwards. -/
theorem rate_step (s : RateLimiter) (now : ℚ)
    (hN : 0 < s.max_rpm)
    (hlen : s.request_times.length ≤ s.max_rpm)
    (hpast : ∀ t ∈ s.request_times, t ≤ now) :
    ((makeRequestTiming s now).1.window_at_issue.length ≤ s.max_rpm) ∧
    (∀ t ∈ (makeRequestTiming s now).1.window_at_issue,
        0 ≤ (makeRequestTiming s now).1.issue_time - t ∧
        (makeRequestTiming s now).1.issue_time - t < 60) ∧
    ((makeRequestTiming s now).1.window_at_issue =
      prune (makeRequestTiming s now).1.issue_time (prune now s.request_times) ++
        [(makeRequestTiming s now).1.issue_time]) ∧
    ((makeRequestTiming s now).2.request_times = (makeRequestTiming s now).1.window_at_issue) ∧
    (now ≤ (makeRequestTiming s now).1.issue_time) := by
  simp only [makeRequestTiming]
  split
  · rename_i hfull
    have hne : prune now s.request_times ≠ [] := by
      intro habs
      rw [habs] at hfull
      simp at hfull
      omega
    have hh0 := headD_mem _ hne
    have hage := age_of_mem_prune hh0
    split
    · rename_i hwait
      dsimp only
      refine ⟨?_, ?_, ?_, rfl, by linarith⟩
      · have hdrop : (prune (now + (60 - (now - (prune now s.request_times).headD 0)))
            (prune now s.request_times)).length < (prune now s.request_times).length := by
          apply filter_length_lt _ _ _ hh0
          simp only [decide_eq_false_iff_not, not_lt]
          linarith
        have hfl := prune_length_le now s.request_times
        simp only [List.length_append, List.length_cons, List.length_nil]
        omega
      · intro t ht
        rcases List.mem_append.mp ht with h | h
        · have h1 := age_of_mem_prune h
          have h2 : t ≤ now := hpast t (mem_of_mem_prune (mem_of_mem_prune h))
          exact ⟨by linarith, by linarith⟩
        · simp only [List.mem_singleton] at h
          subst h
          exact ⟨by linarith, by linarith⟩
      · rfl
    · rename_i hwait
      exfalso
      push_neg at hwait
      linarith
  · rename_i hfull
    push_neg at hfull
    dsimp only
    have hfl := prune_length_le now s.request_times
    refine ⟨?_, ?_, ?_, rfl, le_refl now⟩
    · simp only [List.length_append, List.length_cons, List.length_nil]
      omega
    · intro t ht
      rcases List.mem_append.mp ht with h | h
      · have h1 := age_of_mem_prune h
        have h2 : t ≤ now := hpast t (mem_of_mem_prune h)
        exact ⟨by linarith, by linarith⟩
      · simp only [List.mem_singleton] at h
        subst h
        exact ⟨by linarith, by linarith⟩
    · rw [prune_eq_self now (prune now s.request_times)
        (fun x hx => age_of_mem_prune hx)]

/-! ## C1 — the (N+1)-th call under a full window -/

/-- C1: with budget N, after N calls inside one 60-second span starting
from an empty window, a further call while the window is still full
first finds the pruned window unchanged (still N entries), blocks for
exactly `60 - (now - oldest)` seconds (a positive amount), re-prunes and
issues at `oldest + 60`; every one of the N+1 calls issues its request
(one `CallResult` per call, none dropped), and the first N calls never
waited. -/
theorem rate_limit_nplus1_calls (N : ℕ) (ts : List ℚ) (u : ℚ)
    (hN : 0 < N) (hlen : ts.length = N)
    (hfirst : ∀ x ∈ ts, ts.headD 0 ≤ x)
    (hspan : ∀ x ∈ ts, x - ts.headD 0 < 60)
    (_hu1 : ∀ x ∈ ts, x ≤ u)
    (hu2 : u - ts.headD 0 < 60) :
    (runCalls ⟨N, []⟩ (ts ++ [u])).1.length = N + 1 ∧
    (∀ r ∈ (runCalls ⟨N, []⟩ (ts ++ [u])).1.take N, r.waited = 0) ∧
    ∃ last, (runCalls ⟨N, []⟩ (ts ++ [u])).1.getLast? = some last ∧
      last.waited = 60 - (u - ts.headD 0) ∧
      0 < last.waited ∧
      last.issue_time = ts.headD 0 + 60 ∧
      last.window_at_issue = prune (ts.headD 0 + 60) ts ++ [ts.headD 0 + 60] ∧
      last.window_at_issue.length ≤ N := by
  have hrub := run_under_budget ts [] N (by simp [hlen])
    (by intro x hx; cases hx)
    (by
      intro a ha b hb
      have h1 := hspan b hb
      have h2 := hfirst a ha
      linarith)
  have happ := runCalls_append ⟨N, []⟩ ts [u]
  simp only [List.nil_append] at happ
  have hpr : prune u ts = ts := by
    apply prune_eq_self
    intro x hx
    have h1 := hfirst x hx
    have h2 := hu2
    linarith
  have hstep : makeRequestTiming ⟨N, ts⟩ u =
      (⟨60 - (u - ts.headD 0), ts.headD 0 + 60,
         prune (ts.headD 0 + 60) ts ++ [ts.headD 0 + 60]⟩,
       ⟨N, prune (ts.headD 0 + 60) ts ++ [ts.headD 0 + 60]⟩) := by
    simp only [makeRequestTiming, hpr]
    rw [if_pos (by rw [hlen]), if_pos (by linarith)]
    rw [show u + (60 - (u - ts.headD 0)) = ts.headD 0 + 60 from by ring]
  have hfin : runCalls (⟨N, ts⟩ : RateLimiter) [u] =
      ([(⟨60 - (u - ts.headD 0), ts.headD 0 + 60,
          prune (ts.headD 0 + 60) ts ++ [ts.headD 0 + 60]⟩ : CallResult)],
       ⟨N, prune (ts.headD 0 + 60) ts ++ [ts.headD 0 + 60]⟩) := by
    simp only [runCalls, hstep]
  have hrub1 : (runCalls (⟨N, []⟩ : RateLimiter) ts).2 = ⟨N, ts⟩ := by
    rw [hrub.1]
    simp
  rw [hrub1] at happ
  have hresults : (runCalls ⟨N, []⟩ (ts ++ [u])).1 =
      (runCalls ⟨N, []⟩ ts).1 ++
        [⟨60 - (u - ts.headD 0), ts.headD 0 + 60,
          prune (ts.headD 0 + 60) ts ++ [ts.headD 0 + 60]⟩] := by
    rw [happ, hfin]
  have hneq : ts ≠ [] := by
    intro h
    rw [h] at hlen
    simp at hlen
    omega
  have hh0 := headD_mem ts hneq
  refine ⟨?_, ?_, ?_⟩
  · rw [hresults]
    simp only [List.length_append, List.length_cons, List.length_nil]
    rw [hrub.2.1, hlen]
  · intro r hr
    rw [hresults] at hr
    have htake : ((runCalls ⟨N, []⟩ ts).1 ++
        [(⟨60 - (u - ts.headD 0), ts.headD 0 + 60,
          prune (ts.headD 0 + 60) ts ++ [ts.headD 0 + 60]⟩ : CallResult)]).take N =
        (runCalls ⟨N, []⟩ ts).1 := by
      apply List.take_left'
      rw [hrub.2.1, hlen]
    rw [htake] at hr
    exact hrub.2.2 r hr
  · refine ⟨⟨60 - (u - ts.headD 0), ts.headD 0 + 60,
        prune (ts.headD 0 + 60) ts ++ [ts.headD 0 + 60]⟩, ?_, rfl,
        by dsimp only; linarith, rfl, rfl, ?_⟩
    · rw [hresults]
      exact List.getLast?_concat _
    · have hdrop : (prune (ts.headD 0 + 60) ts).length < ts.length := by
        apply filter_length_lt _ _ _ hh0
        simp only [decide_eq_false_iff_not, not_lt]
        linarith
      simp only [List.length_append, List.length_cons, List.length_nil]
      omega

/-- C1, witness at budget 2, calls at times 0, 1 and 2. -/
theorem rate_limit_nplus1_calls_witness :
    (runCalls ⟨2, []⟩ ([0, 1] ++ [2])).1.length = 2 + 1 ∧
    (∀ r ∈ (runCalls ⟨2, []⟩ ([0, 1] ++ [2])).1.take 2, r.waited = 0) ∧
    ∃ last, (runCalls ⟨2, []⟩ ([0, 1] ++ [2])).1.getLast? = some last ∧
      last.waited = 60 - (2 - [(0 : ℚ), 1].headD 0) ∧
      0 < last.waited ∧
      last.issue_time = [(0 : ℚ), 1].headD 0 + 60 ∧
      last.window_at_issue = prune ([(0 : ℚ), 1].headD 0 + 60) [0, 1] ++ [[(0 : ℚ), 1].headD 0 + 60] ∧
      last.window_at_issue.length ≤ 2 :=
  rate_limit_nplus1_calls 2 [0, 1] 2 (by norm_num) (by norm_num)
    (by norm_num) (by norm_num) (by norm_num) (by norm_num)

/-! ## C2 — the window invariant at issuance -/

/-- C2: under the reachable-state assumptions (window within budget,
entries in the past), at the moment a request is issued the window holds
at most `max_rpm` timestamps, all within the trailing 60 seconds, with
the current timestamp appended as the last entry before the network
call; the state update is the same for every network outcome, so a call
that fails still occupies its slot; and along any run from a
within-budget state, every issued window is within budget and fresh. -/
theorem rate_window_budget_invariant (s : RateLimiter) (now : ℚ)
    (hN : 0 < s.max_rpm)
    (hlen : s.request_times.length ≤ s.max_rpm)
    (hpast : ∀ t ∈ s.request_times, t ≤ now) :
    (makeRequestTiming s now).1.window_at_issue.length ≤ s.max_rpm ∧
    (∀ t ∈ (makeRequestTiming s now).1.window_at_issue,
        0 ≤ (makeRequestTiming s now).1.issue_time - t ∧
        (makeRequestTiming s now).1.issue_time - t < 60) ∧
    ((makeRequestTiming s now).1.window_at_issue =
      prune (makeRequestTiming s now).1.issue_time (prune now s.request_times) ++
        [(makeRequestTiming s now).1.issue_time]) ∧
    (∀ (ep : String) (o : HttpOutcome),
        (make_request s now ep o).2.1 = (makeRequestTiming s now).1 ∧
        (make_request s now ep o).2.2.request_times =
          (makeRequestTiming s now).1.window_at_issue) ∧
    (∀ times, ∀ r ∈ (runCalls s times).1,
        r.window_at_issue.length ≤ s.max_rpm ∧
        ∀ t ∈ r.window_at_issue, r.issue_time - t < 60) := by
  have hstep := rate_step s now hN hlen hpast
  refine ⟨hstep.1, hstep.2.1, hstep.2.2.1, ?_, ?_⟩
  · intro ep o
    exact ⟨rfl, hstep.2.2.2.1⟩
  · intro times
    exact (runCalls_invariant times s hN hlen).2.2

/-- C2, witness: a window of one entry, budget 2. -/
theorem rate_window_budget_invariant_witness :
    ((makeRequestTiming ⟨2, [0]⟩ 1).1.window_at_issue.length ≤ 2 ∧
    (∀ t ∈ (makeRequestTiming ⟨2, [0]⟩ 1).1.window_at_issue,
        0 ≤ (makeRequestTiming ⟨2, [0]⟩ 1).1.issue_time - t ∧
        (makeRequestTiming ⟨2, [0]⟩ 1).1.issue_time - t < 60) ∧
    ((makeRequestTiming ⟨2, [0]⟩ 1).1.window_at_issue =
      prune (makeRequestTiming ⟨2, [0]⟩ 1).1.issue_time (prune 1 [0]) ++
        [(makeRequestTiming ⟨2, [0]⟩ 1).1.issue_time]) ∧
    (∀ (ep : String) (o : HttpOutcome),
        (make_request ⟨2, [0]⟩ 1 ep o).2.1 = (makeRequestTiming ⟨2, [0]⟩ 1).1 ∧
        (make_request ⟨2, [0]⟩ 1 ep o).2.2.request_times =
          (makeRequestTiming ⟨2, [0]⟩ 1).1.window_at_issue) ∧
    (∀ times, ∀ r ∈ (runCalls ⟨2, [0]⟩ times).1,
        r.window_at_issue.length ≤ 2 ∧
        ∀ t ∈ r.window_at_issue, r.issue_time - t < 60)) :=
  rate_window_budget_invariant ⟨2, [0]⟩ 1 (by norm_num) (by norm_num) (by norm_num)

/-! ## C9 — the analysis error boundary -/

/-- C9: `run_company_analysis` never raises past its boundary — it is a
total function into reports — and whenever any step of the pipeline body
raises, the result is exactly the four-key error record `ticker` /
`error` / `execution_time` (elapsed at failure) / `config` (echoing
model, depth, process type and investment style); moreover a failure of
any individual step makes the body fail with that exception. -/
theorem analysis_error_boundary (cfg : AnalysisConfig) (ticker : String)
    (env : PipelineEnv) (e : String)
    (h : pipelineBody cfg ticker env = .error e) :
    run_company_analysis cfg ticker env =
      .dict [("ticker", .str ticker),
             ("error", .str ("Analysis failed: " ++ e)),
             ("execution_time", .num (env.fail_time - env.start_time)),
             ("config", .dict [("model", .str cfg.model), ("depth", .str cfg.depth),
                ("process_type", .str cfg.process_type),
                ("investment_style", .str cfg.investment_style)])] ∧
    (env.fmp_init = .error e → pipelineBody cfg ticker env = .error e) ∧
    (env.fmp_init = .ok () → env.initial_kickoff = .error e →
      pipelineBody cfg ticker env = .error e) ∧
    (∀ s1, env.fmp_init = .ok () → env.initial_kickoff = .ok s1 →
      env.judge_kickoff = .error e → pipelineBody cfg ticker env = .error e) ∧
    (∀ s1 s2, env.fmp_init = .ok () → env.initial_kickoff = .ok s1 →
      env.judge_kickoff = .ok s2 → env.token_count = .error e →
      pipelineBody cfg ticker env = .error e) := by
  refine ⟨?_, ?_, ?_, ?_, ?_⟩
  · simp [run_company_analysis, h, configDict]
  · intro h1
    simp [pipelineBody, h1, Except.bind, Except.map, bind, Functor.map, pure, Except.pure]
  · intro h1 h2
    simp [pipelineBody, h1, h2, Except.bind, Except.map, bind, Functor.map, pure, Except.pure]
  · intro s1 h1 h2 h3
    simp [pipelineBody, h1, h2, h3, Except.bind, Except.map, bind, Functor.map, pure, Except.pure]
  · intro s1 s2 h1 h2 h3 h4
    simp [pipelineBody, h1, h2, h3, h4, Except.bind, Except.map, bind, Functor.map, pure, Except.pure]

/-- C9, witness: the initial crew execution raises `"boom"`. -/
theorem analysis_error_boundary_witness :
    run_company_analysis ⟨"gpt-3.5-turbo", "quick", "sequential", "Balanced"⟩ "AAPL"
        envCrewRaises =
      .dict [("ticker", .str "AAPL"),
             ("error", .str ("Analysis failed: " ++ "boom")),
             ("execution_time", .num (envCrewRaises.fail_time - envCrewRaises.start_time)),
             ("config", .dict [("model", .str "gpt-3.5-turbo"), ("depth", .str "quick"),
                ("process_type", .str "sequential"),
                ("investment_style", .str "Balanced")])] :=
  (analysis_error_boundary ⟨"gpt-3.5-turbo", "quick", "sequential", "Balanced"⟩ "AAPL"
    envCrewRaises "boom" rfl).1


/-! ## JSON lemmas: whitespace, digits, strings -/

theorem skipWs_cons_not (c : Char) (l : List Char) (h : isWsChar c = false) :
    skipWs (c :: l) = c :: l := by
  simp [skipWs, h]

theorem skipWs_cons_ws (c : Char) (l : List Char) (h : isWsChar c = true) :
    skipWs (c :: l) = skipWs l := by
  simp [skipWs, h]

theorem skipWs_idem (l : List Char) : skipWs (skipWs l) = skipWs l := by
  induction l with
  | nil => rfl
  | cons c cs ih =>
    by_cases h : isWsChar c = true
    · rw [skipWs_cons_ws c cs h, ih]
    · simp only [Bool.not_eq_true] at h
      rw [skipWs_cons_not c cs h, skipWs_cons_not c cs h]

theorem digitVal_digitChar (d : Nat) (h : d < 10) : digitVal (digitChar d) = d := by
  interval_cases d <;> decide

theorem natToRevDigits_shape (n : Nat) :
    ∀ c ∈ natToRevDigits n, ∃ d, d < 10 ∧ c = digitChar d := by
  induction n using Nat.strong_induction_on with
  | _ n ih =>
    match n with
    | 0 => intro c hc; simp [natToRevDigits] at hc
    | m + 1 =>
      intro c hc
      rw [natToRevDigits] at hc
      rcases List.mem_cons.mp hc with rfl | hc2
      · exact ⟨(m + 1) % 10, Nat.mod_lt _ (by omega), rfl⟩
      · exact ih ((m + 1) / 10) (Nat.div_lt_self (by omega) (by omega)) c hc2

theorem foldl_revDigits (n : Nat) : ∀ (a : Nat),
    ((natToRevDigits n).reverse).foldl (fun a c => 10 * a + digitVal c) a =
      a * 10 ^ (natToRevDigits n).length + n := by
  induction n using Nat.strong_induction_on with
  | _ n ih =>
    match n with
    | 0 => intro a; simp [natToRevDigits]
    | m + 1 =>
      intro a
      rw [natToRevDigits, List.reverse_cons, List.foldl_append]
      rw [ih ((m + 1) / 10) (Nat.div_lt_self (by omega) (by omega))]
      simp only [List.foldl_cons, List.foldl_nil, List.length_cons]
      rw [digitVal_digitChar _ (Nat.mod_lt _ (by omega))]
      rw [pow_succ]
      have := Nat.div_add_mod (m + 1) 10
      ring_nf
      omega

theorem takeDigits_append (ds rest : List Char)
    (hds : ∀ c ∈ ds, isDigitC c = true) (hrest : digitFree rest = true) :
    takeDigits (ds ++ rest) = (ds, rest) := by
  induction ds with
  | nil =>
    simp only [List.nil_append]
    cases rest with
    | nil => rfl
    | cons c cs =>
      simp only [digitFree, Bool.not_eq_true'] at hrest
      simp [takeDigits, hrest]
  | cons c cs ih =>
    have hc := hds c (by simp)
    simp only [List.cons_append, takeDigits, hc, if_true, List.append_eq]
    rw [ih (fun x hx => hds x (List.mem_cons_of_mem c hx))]

theorem parseNat_dumpNat (n : Nat) (rest : List Char) (hrest : digitFree rest = true) :
    parseNat (dumpNat n ++ rest) = some (n, rest) := by
  by_cases hn : n = 0
  · subst hn
    rw [dumpNat]
    simp only [if_true]
    rw [parseNat, takeDigits_append ['0'] rest (by decide) hrest]
    simp [digitsToNat, digitVal]
  · rw [dumpNat, if_neg hn, parseNat]
    have hdig : ∀ c ∈ (natToRevDigits n).reverse, isDigitC c = true := by
      intro c hc
      obtain ⟨d, hd, rfl⟩ := natToRevDigits_shape n c (List.mem_reverse.mp hc)
      interval_cases d <;> decide
    rw [takeDigits_append _ rest hdig hrest]
    have hne : natToRevDigits n ≠ [] := by
      match n, hn with
      | m + 1, _ => rw [natToRevDigits]; simp
    simp only [List.isEmpty_iff, List.reverse_eq_nil_iff]
    rw [if_neg hne]
    rw [digitsToNat, foldl_revDigits n 0]
    simp

theorem hexVal_hexDigitChar (d : Nat) (h : d < 16) : hexVal (hexDigitChar d) = some d := by
  interval_cases d <;> decide

theorem parseStringRest_dump (cs : List Char) : ∀ rest,
    parseStringRest ((cs.map escapeChar).flatten ++ '"' :: rest) = some (cs, rest) := by
  induction cs with
  | nil =>
    intro rest
    rw [List.map_nil, List.flatten_nil, List.nil_append, parseStringRest.eq_def]
    simp
  | cons c cs ih =>
    intro rest
    simp only [List.map_cons, List.flatten_cons, List.append_assoc]
    rw [escapeChar]
    by_cases h1 : c = '"'
    · subst h1
      simp only [if_true, List.cons_append, List.nil_append]
      rw [parseStringRest.eq_def]
      simp [unescape, ih rest]
    · rw [if_neg h1]
      by_cases h2 : c = '\\'
      · subst h2
        simp only [if_true, reduceIte, List.cons_append, List.nil_append]
        rw [parseStringRest.eq_def]
        simp [unescape, ih rest]
      · rw [if_neg h2]
        by_cases h3 : c = '\n'
        · subst h3
          simp only [if_true, reduceIte, List.cons_append, List.nil_append]
          rw [parseStringRest.eq_def]
          simp [unescape, ih rest]
        · rw [if_neg h3]
          by_cases h4 : c = '\t'
          · subst h4
            simp only [if_true, reduceIte, List.cons_append, List.nil_append]
            rw [parseStringRest.eq_def]
            simp [unescape, ih rest]
          · rw [if_neg h4]
            by_cases h5 : c = '\x0d'
            · subst h5
              simp only [if_true, reduceIte, List.cons_append, List.nil_append]
              rw [parseStringRest.eq_def]
              simp [unescape, ih rest]
            · rw [if_neg h5]
              by_cases h6 : c = '\x08'
              · subst h6
                simp only [if_true, reduceIte, List.cons_append, List.nil_append]
                rw [parseStringRest.eq_def]
                simp [unescape, ih rest]
              · rw [if_neg h6]
                by_cases h7 : c = '\x0c'
                · subst h7
                  simp only [if_true, reduceIte, List.cons_append, List.nil_append]
                  rw [parseStringRest.eq_def]
                  simp [unescape, ih rest]
                · rw [if_neg h7]
                  by_cases h8 : c.toNat < 32
                  · rw [if_pos h8]
                    simp only [List.cons_append, List.nil_append]
                    rw [parseStringRest.eq_def]
                    have hdiv : c.toNat / 16 < 16 := by omega
                    have hmod : c.toNat % 16 < 16 := Nat.mod_lt _ (by omega)
                    have h0 : hexVal '0' = some 0 := by decide
                    have harith : ((0 * 16 + 0) * 16 + c.toNat / 16) * 16 + c.toNat % 16 = c.toNat := by
                      omega
                    simp [h0, hexVal_hexDigitChar _ hdiv, hexVal_hexDigitChar _ hmod, ih rest,
                      harith, Char.ofNat_toNat]
                    rw [show c.toNat / 16 * 16 + c.toNat % 16 = c.toNat from by omega,
                      Char.ofNat_toNat]
                  · rw [if_neg h8]
                    simp only [List.cons_append, List.nil_append]
                    rw [parseStringRest.eq_def]
                    simp [h1, h2, h8, ih rest]


/-! ## JSON lemmas: dump head shapes and parser whitespace insensitivity -/

theorem dumpNat_shape (n : Nat) : ∃ d t, d < 10 ∧ dumpNat n = digitChar d :: t := by
  by_cases hn : n = 0
  · subst hn
    exact ⟨0, [], by omega, by decide⟩
  · rw [dumpNat, if_neg hn]
    have hne : natToRevDigits n ≠ [] := by
      match n, hn with
      | m + 1, _ => rw [natToRevDigits]; simp
    obtain ⟨c, t, hct⟩ := List.exists_cons_of_ne_nil (by simpa using hne :
      (natToRevDigits n).reverse ≠ [])
    have hc : c ∈ natToRevDigits n := by
      rw [← List.mem_reverse, hct]
      simp
    obtain ⟨d, hd, rfl⟩ := natToRevDigits_shape n c hc
    exact ⟨d, t, hd, hct⟩

theorem dump_head (v : JVal) : ∃ c t, dumpChars v = c :: t ∧ isWsChar c = false ∧
    c ≠ ']' ∧ c ≠ ',' ∧ c ≠ closeBrace ∧ c ≠ ':' := by
  cases v with
  | null => exact ⟨'n', _, by rw [dumpChars], by decide, by decide, by decide, by decide, by decide⟩
  | bool b =>
    cases b with
    | true => exact ⟨'t', _, by rw [dumpChars], by decide, by decide, by decide, by decide, by decide⟩
    | false => exact ⟨'f', _, by rw [dumpChars], by decide, by decide, by decide, by decide, by decide⟩
  | num i =>
    rw [dumpChars, dumpInt]
    by_cases hi : i < 0
    · rw [if_pos hi]
      exact ⟨'-', _, rfl, by decide, by decide, by decide, by decide, by decide⟩
    · rw [if_neg hi]
      obtain ⟨d, t, hd, hshape⟩ := dumpNat_shape i.natAbs
      refine ⟨digitChar d, t, hshape, ?_, ?_, ?_, ?_, ?_⟩ <;>
        (interval_cases d <;> decide)
  | str s => exact ⟨'"', _, by rw [dumpChars, dumpStringChars], by decide, by decide, by decide, by decide, by decide⟩
  | arr xs =>
    cases xs with
    | nil => exact ⟨'[', _, by rw [dumpChars], by decide, by decide, by decide, by decide, by decide⟩
    | cons x xs => exact ⟨'[', _, by rw [dumpChars], by decide, by decide, by decide, by decide, by decide⟩
  | obj kvs =>
    cases kvs with
    | nil => exact ⟨openBrace, _, by rw [dumpChars], by decide, by decide, by decide, by decide, by decide⟩
    | cons m ms => exact ⟨openBrace, _, by rw [dumpChars], by decide, by decide, by decide, by decide, by decide⟩

theorem parseValue_succ_skipWs (f : Nat) (l : List Char) :
    parseValue (f + 1) l = parseValue (f + 1) (skipWs l) := by
  conv_lhs => rw [parseValue]
  conv_rhs => rw [parseValue]
  rw [skipWs_idem]

theorem parseValue_bracket_skipWs (f : Nat) (l : List Char) :
    parseValue (f + 1) ('[' :: l) = parseValue (f + 1) ('[' :: skipWs l) := by
  conv_lhs => rw [parseValue]
  conv_rhs => rw [parseValue]
  rw [skipWs_cons_not '[' l (by decide), skipWs_cons_not '[' (skipWs l) (by decide)]
  simp only [skipWs_idem]
  simp [show isDigitC '[' = false from by decide]

theorem parseValue_brace_skipWs (f : Nat) (l : List Char) :
    parseValue (f + 1) (openBrace :: l) = parseValue (f + 1) (openBrace :: skipWs l) := by
  conv_lhs => rw [parseValue]
  conv_rhs => rw [parseValue]
  rw [skipWs_cons_not openBrace l (by decide), skipWs_cons_not openBrace (skipWs l) (by decide)]
  simp only [skipWs_idem]
  simp [show openBrace ≠ 'n' from by decide, show openBrace ≠ 't' from by decide,
    show openBrace ≠ 'f' from by decide, show openBrace ≠ '"' from by decide,
    show openBrace ≠ '-' from by decide, show isDigitC openBrace = false from by decide,
    show openBrace ≠ '[' from by decide]


/-! ## The serializer-parser round trip -/

theorem digitFree_cons (c : Char) (l : List Char) (h : isDigitC c = false) :
    digitFree (c :: l) = true := by simp [digitFree, h]

theorem digitChar_facts (d : Nat) (h : d < 10) :
    isWsChar (digitChar d) = false ∧ digitChar d ≠ 'n' ∧ digitChar d ≠ 't' ∧
    digitChar d ≠ 'f' ∧ digitChar d ≠ '"' ∧ digitChar d ≠ '-' ∧
    isDigitC (digitChar d) = true := by
  interval_cases d <;> decide

theorem parse_null_case (f : Nat) (rest : List Char) :
    parseValue (f + 1) (dumpChars .null ++ rest) = some (.null, rest) := by
  rw [show dumpChars .null = 'n' :: ['u', 'l', 'l'] from by rw [dumpChars]]
  conv_lhs => rw [parseValue]
  rw [List.cons_append, skipWs_cons_not _ _ (by decide)]
  simp

theorem parse_true_case (f : Nat) (rest : List Char) :
    parseValue (f + 1) (dumpChars (.bool true) ++ rest) = some (.bool true, rest) := by
  rw [show dumpChars (.bool true) = 't' :: ['r', 'u', 'e'] from by rw [dumpChars]]
  conv_lhs => rw [parseValue]
  rw [List.cons_append, skipWs_cons_not _ _ (by decide)]
  simp

theorem parse_false_case (f : Nat) (rest : List Char) :
    parseValue (f + 1) (dumpChars (.bool false) ++ rest) = some (.bool false, rest) := by
  rw [show dumpChars (.bool false) = 'f' :: ['a', 'l', 's', 'e'] from by rw [dumpChars]]
  conv_lhs => rw [parseValue]
  rw [List.cons_append, skipWs_cons_not _ _ (by decide)]
  simp

theorem parse_str_case (f : Nat) (s : String) (rest : List Char) :
    parseValue (f + 1) (dumpChars (.str s) ++ rest) = some (.str s, rest) := by
  rw [show dumpChars (.str s) = '"' :: ((s.data.map escapeChar).flatten ++ ['"'])
    from by rw [dumpChars, dumpStringChars]]
  conv_lhs => rw [parseValue]
  rw [List.cons_append, skipWs_cons_not _ _ (by decide)]
  simp only [show ('"' : Char) ≠ 'n' from by decide, show ('"' : Char) ≠ 't' from by decide,
    show ('"' : Char) ≠ 'f' from by decide, if_neg, reduceIte]
  rw [List.append_assoc, List.singleton_append, parseStringRest_dump s.data rest]

theorem parse_num_case (f : Nat) (i : Int) (rest : List Char) (hdf : digitFree rest = true) :
    parseValue (f + 1) (dumpChars (.num i) ++ rest) = some (.num i, rest) := by
  rw [show dumpChars (.num i) = dumpInt i from by rw [dumpChars]]
  rw [dumpInt]
  by_cases hi : i < 0
  · rw [if_pos hi]
    conv_lhs => rw [parseValue]
    rw [List.cons_append, skipWs_cons_not _ _ (by decide)]
    simp only [show ('-' : Char) ≠ 'n' from by decide, show ('-' : Char) ≠ 't' from by decide,
      show ('-' : Char) ≠ 'f' from by decide, show ('-' : Char) ≠ '"' from by decide,
      if_neg, reduceIte]
    rw [parseNat_dumpNat _ _ hdf]
    dsimp only
    rw [show -((i.natAbs : Nat) : Int) = i from by omega]
  · rw [if_neg hi]
    obtain ⟨d, t, hd, hshape⟩ := dumpNat_shape i.natAbs
    obtain ⟨hf1, hf2, hf3, hf4, hf5, hf6, hf7⟩ := digitChar_facts d hd
    rw [hshape]
    conv_lhs => rw [parseValue]
    rw [List.cons_append, skipWs_cons_not _ _ hf1]
    simp only [hf2, hf3, hf4, hf5, hf6, hf7, if_neg, reduceIte, if_true, if_pos]
    rw [← List.cons_append, ← hshape, parseNat_dumpNat _ _ hdf]
    dsimp only
    rw [show ((i.natAbs : Nat) : Int) = i from by omega]

theorem parse_arr_nil_case (f : Nat) (rest : List Char) :
    parseValue (f + 1) (dumpChars (.arr []) ++ rest) = some (.arr [], rest) := by
  rw [show dumpChars (.arr []) = '[' :: [']'] from by rw [dumpChars]]
  conv_lhs => rw [parseValue]
  rw [List.cons_append, skipWs_cons_not _ _ (by decide)]
  simp only [show ('[' : Char) ≠ 'n' from by decide, show ('[' : Char) ≠ 't' from by decide,
    show ('[' : Char) ≠ 'f' from by decide, show ('[' : Char) ≠ '"' from by decide,
    show ('[' : Char) ≠ '-' from by decide, show isDigitC '[' = false from by decide,
    if_neg, reduceIte, Bool.false_eq_true]
  rw [List.singleton_append, skipWs_cons_not _ _ (by decide)]
  simp

theorem parse_arr_single_case (f : Nat) (x : JVal) (rest : List Char)
    (ih : ∀ (v : JVal) (rest : List Char),
      (dumpChars v).length ≤ f → digitFree rest = true →
      parseValue f (dumpChars v ++ rest) = some (v, rest))
    (hlen : (dumpChars (.arr [x])).length ≤ f + 1) :
    parseValue (f + 1) (dumpChars (.arr [x]) ++ rest) = some (.arr [x], rest) := by
  rw [show dumpChars (.arr [x]) = '[' :: elemsChars x [] from by rw [dumpChars]]
  rw [show elemsChars x [] = dumpChars x ++ [']'] from by rw [elemsChars]]
  conv_lhs => rw [parseValue]
  rw [List.cons_append, skipWs_cons_not _ _ (by decide)]
  simp only [show ('[' : Char) ≠ 'n' from by decide, show ('[' : Char) ≠ 't' from by decide,
    show ('[' : Char) ≠ 'f' from by decide, show ('[' : Char) ≠ '"' from by decide,
    show ('[' : Char) ≠ '-' from by decide, show isDigitC '[' = false from by decide,
    if_neg, reduceIte, Bool.false_eq_true]
  obtain ⟨c, t, hct, hws, hb1, hb2, hb3, hb4⟩ := dump_head x
  rw [List.append_assoc, List.singleton_append]
  rw [hct, List.cons_append, skipWs_cons_not _ _ hws]
  rw [if_neg (show ¬ ((c :: (t ++ ']' :: rest)).head? = some ']') from by simp [hb1])]
  rw [← List.cons_append, ← hct]
  have hfuel : (dumpChars x).length ≤ f := by
    rw [show dumpChars (.arr [x]) = '[' :: (dumpChars x ++ [']']) from by
      rw [dumpChars, elemsChars]] at hlen
    simp only [List.length_cons, List.length_append, List.length_singleton] at hlen
    omega
  rw [ih x (']' :: rest) hfuel (digitFree_cons _ _ (by decide))]
  dsimp only
  rw [show skipWs (']' :: rest) = ']' :: rest from skipWs_cons_not _ _ (by decide)]
  simp

theorem parse_arr_cons_case (f : Nat) (x y : JVal) (ys : List JVal) (rest : List Char)
    (hdf : digitFree rest = true)
    (ih : ∀ (v : JVal) (rest : List Char),
      (dumpChars v).length ≤ f → digitFree rest = true →
      parseValue f (dumpChars v ++ rest) = some (v, rest))
    (hlen : (dumpChars (.arr (x :: y :: ys))).length ≤ f + 1) :
    parseValue (f + 1) (dumpChars (.arr (x :: y :: ys)) ++ rest) =
      some (.arr (x :: y :: ys), rest) := by
  have hE : dumpChars (.arr (y :: ys)) = '[' :: elemsChars y ys := by rw [dumpChars]
  have hsplit : dumpChars (.arr (x :: y :: ys)) =
      '[' :: (dumpChars x ++ ',' :: ' ' :: elemsChars y ys) := by
    rw [dumpChars, elemsChars]
  have hlen2 : (dumpChars x).length + 2 + (elemsChars y ys).length + 1 ≤ f + 1 := by
    rw [hsplit] at hlen
    simp only [List.length_cons, List.length_append] at hlen
    omega
  obtain ⟨cy, ty, hcty, hwsy, hby1, hby2, hby3, hby4⟩ := dump_head y
  have hEy : ∃ e2, elemsChars y ys = cy :: e2 := by
    cases ys with
    | nil =>
      rw [elemsChars, hcty]
      exact ⟨ty ++ [']'], by simp⟩
    | cons z zs =>
      rw [elemsChars, hcty]
      exact ⟨ty ++ ',' :: ' ' :: elemsChars z zs, by simp⟩
  obtain ⟨e2, he2⟩ := hEy
  rw [hsplit]
  conv_lhs => rw [parseValue]
  rw [List.cons_append, skipWs_cons_not _ _ (by decide)]
  simp only [show ('[' : Char) ≠ 'n' from by decide, show ('[' : Char) ≠ 't' from by decide,
    show ('[' : Char) ≠ 'f' from by decide, show ('[' : Char) ≠ '"' from by decide,
    show ('[' : Char) ≠ '-' from by decide, show isDigitC '[' = false from by decide,
    if_neg, reduceIte, Bool.false_eq_true]
  obtain ⟨c, t, hct, hws, hb1, hb2, hb3, hb4⟩ := dump_head x
  rw [List.append_assoc]
  rw [hct, List.cons_append, skipWs_cons_not _ _ hws]
  rw [if_neg (show ¬ ((c :: (t ++ (',' :: ' ' :: elemsChars y ys ++ rest))).head? = some ']')
    from by simp [hb1])]
  rw [← List.cons_append, ← hct]
  have hfuelx : (dumpChars x).length ≤ f := by omega
  rw [ih x (',' :: ' ' :: elemsChars y ys ++ rest) hfuelx (digitFree_cons _ _ (by decide))]
  dsimp only
  rw [show skipWs (',' :: ' ' :: elemsChars y ys ++ rest) =
    ',' :: ' ' :: elemsChars y ys ++ rest from skipWs_cons_not _ _ (by decide)]
  rw [if_pos (show ((',' :: ' ' :: elemsChars y ys ++ rest) : List Char).head? = some ','
    from by simp)]
  rw [show ((',' :: ' ' :: elemsChars y ys ++ rest : List Char)).tail =
    ' ' :: elemsChars y ys ++ rest from rfl]
  rw [show skipWs (' ' :: elemsChars y ys ++ rest) = skipWs (elemsChars y ys ++ rest) from
    skipWs_cons_ws _ _ (by decide)]
  rw [show skipWs (elemsChars y ys ++ rest) = elemsChars y ys ++ rest from by
    rw [he2, List.cons_append, skipWs_cons_not _ _ hwsy]]
  rw [if_neg (show ¬ ((elemsChars y ys ++ rest : List Char).head? = some ']') from by
    rw [he2, List.cons_append]
    simp [hby1])]
  have hf1 : 1 ≤ f := by omega
  obtain ⟨f2, rfl⟩ : ∃ f2, f = f2 + 1 := ⟨f - 1, by omega⟩
  rw [parseValue_bracket_skipWs f2 (' ' :: elemsChars y ys ++ rest)]
  rw [show skipWs (' ' :: elemsChars y ys ++ rest) = skipWs (elemsChars y ys ++ rest) from
    skipWs_cons_ws _ _ (by decide)]
  rw [show skipWs (elemsChars y ys ++ rest) = elemsChars y ys ++ rest from by
    rw [he2, List.cons_append, skipWs_cons_not _ _ hwsy]]
  rw [show ('[' :: (elemsChars y ys ++ rest) : List Char) =
    dumpChars (.arr (y :: ys)) ++ rest from by rw [hE, List.cons_append]]
  rw [ih (.arr (y :: ys)) rest (by rw [hE]; simp only [List.length_cons]; omega) hdf]

theorem parse_obj_nil_case (f : Nat) (rest : List Char) :
    parseValue (f + 1) (dumpChars (.obj []) ++ rest) = some (.obj [], rest) := by
  rw [show dumpChars (.obj []) = openBrace :: [closeBrace] from by rw [dumpChars]]
  conv_lhs => rw [parseValue]
  rw [List.cons_append, skipWs_cons_not _ _ (by decide)]
  simp only [show openBrace ≠ 'n' from by decide, show openBrace ≠ 't' from by decide,
    show openBrace ≠ 'f' from by decide, show openBrace ≠ '"' from by decide,
    show openBrace ≠ '-' from by decide, show isDigitC openBrace = false from by decide,
    show openBrace ≠ '[' from by decide, if_neg, reduceIte, Bool.false_eq_true]
  rw [List.singleton_append, skipWs_cons_not _ _ (by decide)]
  simp

theorem parse_obj_single_case (f : Nat) (k : String) (v : JVal) (rest : List Char)
    (ih : ∀ (w : JVal) (rest : List Char),
      (dumpChars w).length ≤ f → digitFree rest = true →
      parseValue f (dumpChars w ++ rest) = some (w, rest))
    (hlen : (dumpChars (.obj [(k, v)])).length ≤ f + 1) :
    parseValue (f + 1) (dumpChars (.obj [(k, v)]) ++ rest) = some (.obj [(k, v)], rest) := by
  have hsplit : dumpChars (.obj [(k, v)]) =
      openBrace :: ('"' :: (((k.data.map escapeChar).flatten ++ ['"']) ++
        (':' :: ' ' :: (dumpChars v ++ [closeBrace])))) := by
    rw [dumpChars, membersChars, dumpStringChars]
    simp
  have hlenv : (dumpChars v).length ≤ f := by
    rw [hsplit] at hlen
    simp only [List.length_cons, List.length_append, List.length_singleton] at hlen
    omega
  rw [hsplit]
  conv_lhs => rw [parseValue]
  rw [List.cons_append, skipWs_cons_not _ _ (by decide)]
  simp only [show openBrace ≠ 'n' from by decide, show openBrace ≠ 't' from by decide,
    show openBrace ≠ 'f' from by decide, show openBrace ≠ '"' from by decide,
    show openBrace ≠ '-' from by decide, show isDigitC openBrace = false from by decide,
    show openBrace ≠ '[' from by decide, if_neg, reduceIte, Bool.false_eq_true]
  rw [List.cons_append, skipWs_cons_not _ _ (by decide)]
  rw [if_neg (show ¬ ((('"' :: _ : List Char)).head? = some closeBrace) from by simp; decide)]
  rw [if_pos (show (('"' :: _ : List Char)).head? = some '"' from by simp)]
  rw [List.tail_cons]
  rw [show (List.map escapeChar k.data).flatten ++ ['"'] ++
        ':' :: ' ' :: (dumpChars v ++ [closeBrace]) ++ rest =
      (k.data.map escapeChar).flatten ++ '"' ::
        (':' :: ' ' :: (dumpChars v ++ [closeBrace]) ++ rest) from by simp]
  rw [parseStringRest_dump k.data]
  dsimp only
  rw [show skipWs (':' :: ' ' :: (dumpChars v ++ [closeBrace]) ++ rest) =
    ':' :: ' ' :: (dumpChars v ++ [closeBrace]) ++ rest from skipWs_cons_not _ _ (by decide)]
  rw [if_pos (show ((':' :: ' ' :: (dumpChars v ++ [closeBrace]) ++ rest : List Char)).head? =
    some ':' from by simp)]
  obtain ⟨f2, rfl⟩ : ∃ f2, f = f2 + 1 := ⟨f - 1, by
    rw [hsplit] at hlen
    simp only [List.length_cons] at hlen
    omega⟩
  rw [show ((':' :: ' ' :: (dumpChars v ++ [closeBrace]) ++ rest : List Char)).tail =
    ' ' :: (dumpChars v ++ [closeBrace]) ++ rest from rfl]
  rw [parseValue_succ_skipWs f2 (' ' :: (dumpChars v ++ [closeBrace]) ++ rest)]
  obtain ⟨cv, tv, hctv, hwsv, hbv1, hbv2, hbv3, hbv4⟩ := dump_head v
  rw [show skipWs (' ' :: (dumpChars v ++ [closeBrace]) ++ rest) =
      dumpChars v ++ closeBrace :: rest from by
    rw [List.cons_append, skipWs_cons_ws _ _ (by decide)]
    rw [List.append_assoc, List.singleton_append, hctv, List.cons_append,
      skipWs_cons_not _ _ hwsv]]
  rw [ih v (closeBrace :: rest) hlenv (digitFree_cons _ _ (by decide))]
  dsimp only
  rw [show skipWs (closeBrace :: rest) = closeBrace :: rest from skipWs_cons_not _ _ (by decide)]
  rw [if_neg (show ¬ ((closeBrace :: rest : List Char).head? = some ',') from by simp; decide)]
  rw [if_pos (show ((closeBrace :: rest : List Char)).head? = some closeBrace from by simp)]
  simp

theorem parse_obj_cons_case (f : Nat) (k : String) (v : JVal) (k2 : String) (v2 : JVal)
    (ms : List (String × JVal)) (rest : List Char)
    (hdf : digitFree rest = true)
    (ih : ∀ (w : JVal) (rest : List Char),
      (dumpChars w).length ≤ f → digitFree rest = true →
      parseValue f (dumpChars w ++ rest) = some (w, rest))
    (hlen : (dumpChars (.obj ((k, v) :: (k2, v2) :: ms))).length ≤ f + 1) :
    parseValue (f + 1) (dumpChars (.obj ((k, v) :: (k2, v2) :: ms)) ++ rest) =
      some (.obj ((k, v) :: (k2, v2) :: ms), rest) := by
  have hM : dumpChars (.obj ((k2, v2) :: ms)) = openBrace :: membersChars (k2, v2) ms := by
    rw [dumpChars]
  have hMhead : ∃ t2, membersChars (k2, v2) ms = '"' :: t2 := by
    cases ms with
    | nil =>
      rw [membersChars, dumpStringChars]
      exact ⟨((k2.data.map escapeChar).flatten ++ ['"']) ++
        ':' :: ' ' :: (dumpChars v2 ++ [closeBrace]), by simp⟩
    | cons m3 ms3 =>
      rw [membersChars, dumpStringChars]
      exact ⟨((k2.data.map escapeChar).flatten ++ ['"']) ++
        ':' :: ' ' :: (dumpChars v2 ++ ',' :: ' ' :: membersChars m3 ms3), by simp⟩
  obtain ⟨t2, ht2⟩ := hMhead
  have hsplit : dumpChars (.obj ((k, v) :: (k2, v2) :: ms)) =
      openBrace :: ('"' :: ((List.map escapeChar k.data).flatten ++ ['"'] ++
        (':' :: ' ' :: (dumpChars v ++ ',' :: ' ' :: membersChars (k2, v2) ms)))) := by
    rw [dumpChars, membersChars, dumpStringChars]
    simp
  have hlenv : (dumpChars v).length ≤ f ∧
      (dumpChars (.obj ((k2, v2) :: ms))).length ≤ f ∧ 1 ≤ f := by
    rw [hsplit] at hlen
    rw [hM]
    simp only [List.length_cons, List.length_append, List.length_singleton] at hlen ⊢
    omega
  rw [hsplit]
  conv_lhs => rw [parseValue]
  rw [List.cons_append, skipWs_cons_not _ _ (by decide)]
  simp only [show openBrace ≠ 'n' from by decide, show openBrace ≠ 't' from by decide,
    show openBrace ≠ 'f' from by decide, show openBrace ≠ '"' from by decide,
    show openBrace ≠ '-' from by decide, show isDigitC openBrace = false from by decide,
    show openBrace ≠ '[' from by decide, if_neg, reduceIte, Bool.false_eq_true]
  rw [List.cons_append, skipWs_cons_not _ _ (by decide)]
  rw [if_neg (show ¬ ((('"' :: _ : List Char)).head? = some closeBrace) from by simp; decide)]
  rw [if_pos (show (('"' :: _ : List Char)).head? = some '"' from by simp)]
  rw [List.tail_cons]
  rw [show (List.map escapeChar k.data).flatten ++ ['"'] ++
        ':' :: ' ' :: (dumpChars v ++ ',' :: ' ' :: membersChars (k2, v2) ms) ++ rest =
      (k.data.map escapeChar).flatten ++ '"' ::
        (':' :: ' ' :: (dumpChars v ++ ',' :: ' ' :: membersChars (k2, v2) ms) ++ rest)
      from by simp]
  rw [parseStringRest_dump k.data]
  dsimp only
  rw [show skipWs (':' :: ' ' :: (dumpChars v ++ ',' :: ' ' :: membersChars (k2, v2) ms) ++ rest) =
    ':' :: ' ' :: (dumpChars v ++ ',' :: ' ' :: membersChars (k2, v2) ms) ++ rest
    from skipWs_cons_not _ _ (by decide)]
  rw [if_pos (show ((':' :: ' ' :: (dumpChars v ++ ',' :: ' ' :: membersChars (k2, v2) ms) ++ rest :
    List Char)).head? = some ':' from by simp)]
  obtain ⟨f2, rfl⟩ : ∃ f2, f = f2 + 1 := ⟨f - 1, by omega⟩
  rw [show ((':' :: ' ' :: (dumpChars v ++ ',' :: ' ' :: membersChars (k2, v2) ms) ++ rest :
    List Char)).tail = ' ' :: (dumpChars v ++ ',' :: ' ' :: membersChars (k2, v2) ms) ++ rest from rfl]
  rw [parseValue_succ_skipWs f2 (' ' :: (dumpChars v ++ ',' :: ' ' :: membersChars (k2, v2) ms) ++ rest)]
  obtain ⟨cv, tv, hctv, hwsv, hbv1, hbv2, hbv3, hbv4⟩ := dump_head v
  rw [show skipWs (' ' :: (dumpChars v ++ ',' :: ' ' :: membersChars (k2, v2) ms) ++ rest) =
      dumpChars v ++ ',' :: ' ' :: membersChars (k2, v2) ms ++ rest from by
    rw [List.cons_append, skipWs_cons_ws _ _ (by decide)]
    rw [List.append_assoc, hctv, List.cons_append, skipWs_cons_not _ _ hwsv]]
  simp only [List.append_assoc, List.cons_append]
  rw [ih v (',' :: ' ' :: (membersChars (k2, v2) ms ++ rest)) hlenv.1
    (digitFree_cons _ _ (by decide))]
  dsimp only
  rw [show skipWs (',' :: ' ' :: (membersChars (k2, v2) ms ++ rest)) =
    ',' :: ' ' :: (membersChars (k2, v2) ms ++ rest) from skipWs_cons_not _ _ (by decide)]
  rw [if_pos (show ((',' :: ' ' :: (membersChars (k2, v2) ms ++ rest) : List Char)).head? =
    some ',' from by simp)]
  rw [show ((',' :: ' ' :: (membersChars (k2, v2) ms ++ rest) : List Char)).tail =
    ' ' :: (membersChars (k2, v2) ms ++ rest) from rfl]
  have hsk : skipWs (' ' :: (membersChars (k2, v2) ms ++ rest)) =
      membersChars (k2, v2) ms ++ rest := by
    rw [skipWs_cons_ws _ _ (by decide), ht2, List.cons_append,
      skipWs_cons_not _ _ (by decide), ← List.cons_append, ← ht2]
  rw [hsk]
  rw [if_neg (show ¬ ((membersChars (k2, v2) ms ++ rest : List Char).head? = some closeBrace)
    from by rw [ht2, List.cons_append]; simp; decide)]
  rw [parseValue_brace_skipWs f2 (' ' :: (membersChars (k2, v2) ms ++ rest))]
  rw [hsk]
  rw [show (openBrace :: (membersChars (k2, v2) ms ++ rest) : List Char) =
    dumpChars (.obj ((k2, v2) :: ms)) ++ rest from by rw [hM, List.cons_append]]
  rw [ih (.obj ((k2, v2) :: ms)) rest hlenv.2.1 hdf]

/-- The serializer-parser round trip at the character level: with enough
fuel, parsing the serialized value consumes exactly it. -/
theorem parses_dump : ∀ (f : Nat) (v : JVal) (rest : List Char),
    (dumpChars v).length ≤ f → digitFree rest = true →
    parseValue f (dumpChars v ++ rest) = some (v, rest) := by
  intro f
  induction f with
  | zero =>
    intro v rest hlen _
    obtain ⟨c, t, hct, _⟩ := dump_head v
    rw [hct] at hlen
    simp at hlen
  | succ f ih =>
    intro v rest hlen hdf
    match v with
    | .null => exact parse_null_case f rest
    | .bool true => exact parse_true_case f rest
    | .bool false => exact parse_false_case f rest
    | .num i => exact parse_num_case f i rest hdf
    | .str s => exact parse_str_case f s rest
    | .arr [] => exact parse_arr_nil_case f rest
    | .arr [x] => exact parse_arr_single_case f x rest ih hlen
    | .arr (x :: y :: ys) => exact parse_arr_cons_case f x y ys rest hdf ih hlen
    | .obj [] => exact parse_obj_nil_case f rest
    | .obj [(k, v)] => exact parse_obj_single_case f k v rest ih hlen
    | .obj ((k, v) :: (k2, v2) :: ms) => exact parse_obj_cons_case f k v k2 v2 ms rest hdf ih hlen

/-! ## Parsing serialized values back (`loads` after `dumps`) -/

theorem loadsChars_dump (v : JVal) : loadsChars (dumpChars v) = some v := by
  have h := parses_dump ((dumpChars v).length + 1) v [] (by omega) rfl
  rw [List.append_nil] at h
  simp only [loadsChars]
  rw [h]
  rfl

theorem loads_dumps (v : JVal) : loads (dumps v) = some v := loadsChars_dump v

/-! ## Shape of the regex substring `braceSub` -/

theorem dropWhile_head_false (p : Char → Bool) : ∀ (l : List Char) (c : Char) (t : List Char),
    l.dropWhile p = c :: t → p c = false := by
  intro l
  induction l with
  | nil => intro c t h; simp [List.dropWhile] at h
  | cons a as ih =>
    intro c t h
    rw [List.dropWhile_cons] at h
    split at h
    · exact ih c t h
    · next hp =>
      injection h with h1 _
      subst h1
      simpa using hp

theorem dropWhile_suffix_ex (p : Char → Bool) : ∀ l : List Char, ∃ pre, l = pre ++ l.dropWhile p := by
  intro l
  induction l with
  | nil => exact ⟨[], rfl⟩
  | cons a as ih =>
    rw [List.dropWhile_cons]
    split
    · obtain ⟨pre, hp⟩ := ih
      exact ⟨a :: pre, by rw [List.cons_append, ← hp]⟩
    · exact ⟨[], rfl⟩

theorem braceSub_head (l sub : List Char) (h : braceSub l = some sub) :
    ∃ t, sub = openBrace :: t := by
  have hmain : sub ≠ [] ∧
      sub = ((l.dropWhile (fun c => c ≠ openBrace)).reverse.dropWhile
        (fun c => c ≠ closeBrace)).reverse := by
    simp only [braceSub] at h
    split at h
    · exact absurd h (by simp)
    · next hne =>
      injection h with h1
      subst h1
      refine ⟨?_, rfl⟩
      intro hnil
      rw [hnil] at hne
      exact hne rfl
  obtain ⟨hne, hsub⟩ := hmain
  obtain ⟨pre, hpre⟩ := dropWhile_suffix_ex (fun c => c ≠ closeBrace)
    (l.dropWhile (fun c => c ≠ openBrace)).reverse
  have hL1eq : l.dropWhile (fun c => c ≠ openBrace) = sub ++ pre.reverse := by
    have h2 := congrArg List.reverse hpre
    rw [List.reverse_reverse, List.reverse_append] at h2
    rw [h2, hsub]
  cases hsubc : sub with
  | nil => exact absurd hsubc hne
  | cons c t =>
    have hcc := dropWhile_head_false (fun c => c ≠ openBrace) l c (t ++ pre.reverse)
      (by rw [hL1eq, hsubc, List.cons_append])
    simp at hcc
    exact ⟨t, by rw [hcc]⟩

theorem braceSub_wrapped (t : List Char) :
    braceSub (openBrace :: (t ++ [closeBrace])) = some (openBrace :: (t ++ [closeBrace])) := by
  have h1 : (openBrace :: (t ++ [closeBrace])).dropWhile (fun c => c ≠ openBrace)
      = openBrace :: (t ++ [closeBrace]) := by
    rw [List.dropWhile_cons, if_neg (by simp)]
  have h2 : (openBrace :: (t ++ [closeBrace])).reverse
      = closeBrace :: (t.reverse ++ [openBrace]) := by
    simp
  have h3 : (closeBrace :: (t.reverse ++ [openBrace])).dropWhile (fun c => c ≠ closeBrace)
      = closeBrace :: (t.reverse ++ [openBrace]) := by
    rw [List.dropWhile_cons, if_neg (by simp)]
  simp only [braceSub, h1, h2, h3]
  rw [show (closeBrace :: (t.reverse ++ [openBrace])).reverse
    = openBrace :: (t ++ [closeBrace]) from by simp]
  rw [if_neg (by simp)]

/-! ## Serialized objects are brace-wrapped -/

theorem membersChars_split : ∀ (ms : List (String × JVal)) (k : String) (v : JVal),
    ∃ t, membersChars (k, v) ms = t ++ [closeBrace] := by
  intro ms
  induction ms with
  | nil =>
    intro k v
    exact ⟨dumpStringChars k ++ ':' :: ' ' :: dumpChars v, by rw [membersChars]; simp⟩
  | cons m2 ms2 ih =>
    intro k v
    obtain ⟨k2, v2⟩ := m2
    obtain ⟨t2, ht2⟩ := ih k2 v2
    exact ⟨dumpStringChars k ++ ':' :: ' ' :: (dumpChars v ++ ',' :: ' ' :: t2), by
      rw [membersChars, ht2]; simp⟩

theorem dump_obj_shape (kvs : List (String × JVal)) :
    ∃ t, dumpChars (.obj kvs) = openBrace :: (t ++ [closeBrace]) := by
  cases kvs with
  | nil => exact ⟨[], by rw [dumpChars]; rfl⟩
  | cons m ms =>
    obtain ⟨k, v⟩ := m
    obtain ⟨t, ht⟩ := membersChars_split ms k v
    exact ⟨t, by rw [dumpChars, ht]⟩

/-! ## Values parsed from an opening brace are objects -/

theorem parseValue_brace_isObj (f : Nat) (l : List Char) (v : JVal) (r : List Char)
    (h : parseValue f (openBrace :: l) = some (v, r)) : v.isObj = true := by
  match f with
  | 0 =>
    rw [parseValue] at h
    exact absurd h (by simp)
  | f + 1 =>
    rw [parseValue] at h
    rw [skipWs_cons_not _ _ (by decide)] at h
    simp only [show openBrace ≠ 'n' from by decide, show openBrace ≠ 't' from by decide,
      show openBrace ≠ 'f' from by decide, show openBrace ≠ '"' from by decide,
      show openBrace ≠ '-' from by decide, show isDigitC openBrace = false from by decide,
      show openBrace ≠ '[' from by decide, if_neg, reduceIte, Bool.false_eq_true] at h
    repeat' split at h
    all_goals first
      | (simp only [Option.some.injEq, Prod.mk.injEq] at h
         obtain ⟨h1, -⟩ := h
         subst h1
         rfl)
      | exact Option.noConfusion h

theorem loadsChars_brace_isObj (l : List Char) (v : JVal)
    (h : loadsChars (openBrace :: l) = some v) : v.isObj = true := by
  rw [loadsChars] at h
  split at h
  · next w r hp =>
    split at h
    · injection h with h1
      exact h1 ▸ parseValue_brace_isObj _ _ _ _ hp
    · exact absurd h (by simp)
  · exact absurd h (by simp)

/-! ## The two extractors on serialized objects -/

theorem extract_dump_obj (kvs : List (String × JVal)) :
    extract_json_like (dumps (.obj kvs)) = .obj kvs := by
  have hne : dumps (JVal.obj kvs) ≠ "" := by
    obtain ⟨t, ht⟩ := dump_obj_shape kvs
    intro habs
    have hd : dumpChars (JVal.obj kvs) = [] := congrArg String.data habs
    rw [ht] at hd
    simp at hd
  rw [extract_json_like, if_neg hne, loads_dumps]

theorem judge_parse_dump_obj (kvs : List (String × JVal)) :
    process_judge_parse (dumps (.obj kvs)) = some (.obj kvs) := by
  obtain ⟨t, ht⟩ := dump_obj_shape kvs
  rw [process_judge_parse]
  rw [show (dumps (JVal.obj kvs)).data = dumpChars (JVal.obj kvs) from rfl]
  rw [ht, braceSub_wrapped]
  rw [← ht]
  exact loadsChars_dump _

/-- C6: `json.loads` of a bare scalar such as `"3"` succeeds and
`extract_json_like` returns it unchanged, so the first tier can hand back
a non-mapping value: the claim that the function always returns a mapping
is refuted. -/
theorem extract_json_nonmapping_counterexample :
    loads "3" = some (.num 3) ∧ (extract_json_like "3").isObj = false :=
  ⟨rfl, rfl⟩

/-- C6 (amended): `extract_json_like` is a total function (the
code never lets an exception escape), and whenever the first tier —
the strict parse of the whole text — fails, the result is a mapping:
the brace-delimited tier only ever parses a value starting at an opening
brace, which must be an object, and every other path returns the empty
mapping. In particular, when the remaining tiers also fail the result is
exactly the empty mapping. -/
theorem extract_json_mapping_amended (s : String) (h : loads s = Option.none) :
    (extract_json_like s).isObj = true ∧
    (braceSub s.data = Option.none → extract_json_like s = .obj []) ∧
    (∀ sub, braceSub s.data = some sub → loadsChars (replaceQuotes sub) = Option.none →
      extract_json_like s = .obj []) := by
  by_cases hs : s = ""
  · subst hs
    exact ⟨rfl, fun _ => rfl, fun _ _ _ => rfl⟩
  · refine ⟨?_, ?_, ?_⟩
    · rw [extract_json_like, if_neg hs, h]
      cases hb : braceSub s.data with
      | none => rfl
      | some sub =>
        show (match loadsChars (replaceQuotes sub) with
          | some v => v | Option.none => JVal.obj []).isObj = true
        obtain ⟨t, ht⟩ := braceSub_head s.data sub hb
        subst ht
        rw [show replaceQuotes (openBrace :: t) = openBrace :: replaceQuotes t from by
          simp only [replaceQuotes, List.map_cons]
          rw [if_neg (by decide)]]
        cases hl : loadsChars (openBrace :: replaceQuotes t) with
        | none => rfl
        | some v => exact loadsChars_brace_isObj _ _ hl
    · intro hb
      rw [extract_json_like, if_neg hs, h, hb]
    · intro sub hb hl
      rw [extract_json_like, if_neg hs, h, hb]
      show (match loadsChars (replaceQuotes sub) with
        | some v => v | Option.none => JVal.obj []) = JVal.obj []
      rw [hl]

theorem extract_json_mapping_amended_witness :
    loads "not json" = Option.none ∧ (extract_json_like "not json").isObj = true :=
  ⟨rfl, (extract_json_mapping_amended "not json" rfl).1⟩

/-- C7: on the strict JSON serialization of a mapping record (string
keys, JSON-representable values, no duplicate keys), the first tier of
`extract_json_like` — `json.loads` of the whole text — succeeds and
returns the record itself, so extraction is a left inverse of
serialization. -/
theorem extract_json_roundtrip (kvs : List (String × JVal))
    (_h : (kvs.map Prod.fst).Nodup) :
    extract_json_like (dumps (.obj kvs)) = .obj kvs := by
  exact extract_dump_obj kvs

theorem extract_json_roundtrip_witness :
    (([("rating", JVal.str "HOLD"), ("score", JVal.num 3)].map Prod.fst).Nodup) ∧
    extract_json_like (dumps (.obj [("rating", JVal.str "HOLD"), ("score", JVal.num 3)]))
      = .obj [("rating", JVal.str "HOLD"), ("score", JVal.num 3)] :=
  ⟨by decide, extract_json_roundtrip _ (by decide)⟩

/-- C10: the judge interpreter does not perform the same extraction as
`extract_json_like`: it has only two tiers and never substitutes single
quotes for double quotes. On a single-quoted record the extractor's
third tier succeeds while the judge interpreter falls through to its
JSON-error handler and produces no record. -/
theorem judge_extraction_counterexample :
    extract_json_like "\x7b'rating': 'BUY'\x7d" = .obj [("rating", .str "BUY")] ∧
    process_judge_parse "\x7b'rating': 'BUY'\x7d" = Option.none :=
  ⟨rfl, rfl⟩

/-- C10 (amended): the judge interpreter's extraction is two-tier
(brace-delimited substring first, then the whole string, with no quote
substitution), but on strict JSON serializations of mapping records the
two extractors do agree: both recover the record; and the rating,
confidence and justification fields are read with the defaults `"N/A"`,
`"Medium"` and `"No justification provided."` when absent. -/
theorem judge_extraction_amended (kvs : List (String × JVal))
    (_h : (kvs.map Prod.fst).Nodup) :
    process_judge_parse (dumps (.obj kvs)) = some (.obj kvs) ∧
    extract_json_like (dumps (.obj kvs)) = .obj kvs ∧
    process_judge_fields (.obj []) =
      (.str "N/A", .str "Medium", .str "No justification provided.") :=
  ⟨judge_parse_dump_obj kvs, extract_dump_obj kvs, rfl⟩

theorem judge_extraction_amended_witness :
    (([("confidence", JVal.str "High")].map Prod.fst).Nodup) ∧
    process_judge_parse (dumps (.obj [("confidence", JVal.str "High")]))
      = some (.obj [("confidence", JVal.str "High")]) :=
  ⟨by decide, (judge_extraction_amended _ (by decide)).1⟩

end Oracle
